import Mathlib

/-!
A verification development for the pattern canonicalizer
(`compiler/can/src/pattern.rs`): the surface and canonical pattern data
model, the canonicalization engine, and the two symbol-extraction
traversals, together with theorems settling the specified properties.

Machine integers are modelled as `Nat`/`Int` with explicit bounds where
overflow matters.  Code paths that abort (the `todo!` on unicode string
segments and the `unreachable!` arms) are modelled by returning `none`:
canonicalization yields `Option` so that a panic is observable.
-/

namespace RocCan

/-- A source region locating a syntax node (abstract span id). -/
abbrev Region := Nat

/-- A located value, as `roc_region::all::Loc`. -/
structure Loc (α : Type) where
  region : Region
  value : α
  deriving DecidableEq

/-- A resolved symbol: module id plus interned ident id, as
`roc_module::symbol::Symbol`. -/
structure Symbol where
  module : Nat
  identId : Nat
  deriving DecidableEq

/-- A tag constructor name: globally visible, or module-private (interned
per module), as `roc_module::ident::TagName`. -/
inductive TagName : Type where
  | global (name : String)
  | priv (sym : Symbol)
  deriving DecidableEq

/-- The syntactic context a pattern appears in, as
`roc_parse::pattern::PatternType`. -/
inductive PatternType : Type where
  | topLevelDef
  | defExpr
  | functionArg
  | whenBranch
  deriving DecidableEq

/-- Numeric literal base for non-decimal integer literals. -/
inductive NumBase : Type where
  | octal
  | binary
  | hex
  | decimal
  deriving DecidableEq

/-- An escape inside a string literal (the decoded-character set of
`unescape_char`). -/
inductive EscapedChar : Type where
  | newline
  | tab
  | doubleQuote
  | backslash
  | carriageReturn
  | nul
  deriving DecidableEq

/-- Modelled from the spec: `unescape_char` (in `expr.rs`, not under
`src/`) decodes one escape segment to its character. -/
def unescapeChar : EscapedChar → Char
  | .newline => '\n'
  | .tab => '\t'
  | .doubleQuote => '\"'
  | .backslash => '\\'
  | .carriageReturn => '\r'
  | .nul => Char.ofNat 0

/-- One segment of a string literal, as `roc_parse::ast::StrSegment`.
For an interpolated segment only its region is relevant here. -/
inductive StrSegment : Type where
  | plaintext (s : String)
  | unicode (digits : Loc String)
  | interpolated (region : Region)
  | escapedChar (c : EscapedChar)
  deriving DecidableEq

/-- A surface string literal, as `roc_parse::ast::StrLiteral`. -/
inductive StrLiteral : Type where
  | plainLine (s : String)
  | line (segments : List StrSegment)
  | block (lines : List (List StrSegment))
  deriving DecidableEq

/-- A 128-bit integer literal value: signed (within `i128`) or at full
unsigned 128-bit width, as `IntValue`. -/
inductive IntValue : Type where
  | i128 (n : Int)
  | u128 (n : Nat)
  deriving DecidableEq

/-- The surface pattern tree, as `roc_parse::ast::Pattern`.  The default
expression of an optional field is opaque to this core and carried as an
id. -/
inductive SPattern : Type where
  | identifier (name : String)
  | globalTag (name : String)
  | privateTag (name : String)
  | opqRef (name : String)
  | apply (tag : Loc SPattern) (args : List (Loc SPattern))
  | floatLiteral (s : String)
  | numLiteral (s : String)
  | nonBase10Literal (digits : String) (base : NumBase) (isNegative : Bool)
  | strLiteral (lit : StrLiteral)
  | underscore (name : String)
  | singleQuote (s : String)
  | recordDestructure (fields : List (Loc SPattern))
  | requiredField (label : String) (guard : Loc SPattern)
  | optionalField (label : String) (defaultExpr : Loc Nat)
  | spaceBefore (sub : SPattern)
  | spaceAfter (sub : SPattern)
  | malformed (s : String)
  | malformedIdent (s : String) (badIdent : Nat)
  | qualifiedIdentifier

/-- The reason a pattern is malformed, as
`roc_problem::can::MalformedPatternProblem`. -/
inductive MalformedPatternProblem : Type where
  | malformedFloat
  | malformedInt
  | malformedBase (b : NumBase)
  | unknown
  | badIdent (code : Nat)
  | qualifiedIdentifier
  | emptySingleQuote
  | multipleCharsInSingleQuote
  deriving DecidableEq

/-- Modelled from the spec: a canonical expression (the default of an
optional record field); `expr.rs` is not under `src/`, and defaults are
opaque to this core. -/
inductive Expr : Type where
  | defaultExpr (id : Nat)
  deriving DecidableEq

mutual
/-- The canonical pattern, as `Pattern` in `pattern.rs`: resolved,
symbol-bound, with error sentinels as first-class nodes.  Type variables,
bound classifications, the specialized opaque def type and lambda sets
are carried as `Nat` placeholders minted by the freshener. -/
inductive Pattern : Type where
  | identifier (sym : Symbol)
  | appliedTag (wholeVar : Nat) (extVar : Nat) (tagName : TagName)
      (arguments : List (Nat × Loc Pattern))
  | unwrappedOpq (wholeVar : Nat) (opq : Symbol) (argument : Nat × Loc Pattern)
      (specializedDefType : Nat) (typeArguments : List (String × Nat))
      (lambdaSetVariables : List Nat)
  | recordDestructure (wholeVar : Nat) (extVar : Nat)
      (destructs : List (Loc RecordDestruct))
  | numLiteral (var : Nat) (text : String) (value : IntValue) (bound : Nat)
  | intLiteral (var1 : Nat) (var2 : Nat) (text : String) (value : IntValue) (bound : Nat)
  | floatLiteral (var1 : Nat) (var2 : Nat) (text : String) (value : String) (bound : Nat)
  | strLiteral (text : String)
  | singleQuote (c : Char)
  | underscore
  | abilityMemberSpecialization (ident : Symbol) (specializes : Symbol)
  | shadowed (originalRegion : Region) (shadowIdent : Loc String) (sym : Symbol)
  | opqNotInScope (name : Loc String)
  | unsupportedPattern (region : Region)
  | malformedPattern (problem : MalformedPatternProblem) (region : Region)

/-- One record-destructure field, as `RecordDestruct`. -/
inductive RecordDestruct : Type where
  | mk (var : Nat) (label : String) (symbol : Symbol) (typ : DestructType)

/-- The kind of a record-destructure field, as `DestructType`. -/
inductive DestructType : Type where
  | required
  | optional (var : Nat) (defaultExpr : Loc Expr)
  | guard (var : Nat) (pattern : Loc Pattern)
end

/-- The symbol a record destruct binds (or interns, for a guard). -/
def RecordDestruct.symbol : RecordDestruct → Symbol
  | .mk _ _ s _ => s

/-- The field label of a record destruct. -/
def RecordDestruct.label : RecordDestruct → String
  | .mk _ l _ _ => l

/-- The destruct kind of a record destruct. -/
def RecordDestruct.typ : RecordDestruct → DestructType
  | .mk _ _ _ t => t

/-- The accumulator a canonicalization call returns, as `Output`
(restricted to the reference sets this core writes). -/
structure Output where
  boundSymbols : List Symbol
  referencedTypeDefs : List Symbol
  typeLookups : List Symbol
  deriving DecidableEq

/-- The empty accumulator (`Output::default`). -/
def Output.empty : Output := ⟨[], [], []⟩

/-- Record a symbol this pattern binds. -/
def Output.insertBound (o : Output) (s : Symbol) : Output :=
  { o with boundSymbols := o.boundSymbols ++ [s] }

/-- Record a referenced type definition. -/
def Output.insertRefTypeDef (o : Output) (s : Symbol) : Output :=
  { o with referencedTypeDefs := o.referencedTypeDefs ++ [s] }

/-- Record a type lookup. -/
def Output.insertTypeLookup (o : Output) (s : Symbol) : Output :=
  { o with typeLookups := o.typeLookups ++ [s] }

/-- `Output::union`: set union of the accumulators (list append here;
all theorems read it through membership). -/
def Output.union (o1 o2 : Output) : Output :=
  ⟨o1.boundSymbols ++ o2.boundSymbols,
   o1.referencedTypeDefs ++ o2.referencedTypeDefs,
   o1.typeLookups ++ o2.typeLookups⟩

/-- A structured runtime-error problem record, as
`roc_problem::can::RuntimeError` (the variants this core emits). -/
inductive RuntimeError : Type where
  | shadowing (originalRegion : Region) (shadow : Loc String)
  | opqNotApplied (name : Loc String)
  | opqAppliedToMultipleArgs (region : Region)
  | malformedPattern (p : MalformedPatternProblem) (region : Region)
  | opqNotInScope (name : Loc String)
  deriving DecidableEq

/-- The reason a pattern form is unsupported, as `BadPattern`. -/
inductive BadPattern : Type where
  | unsupported (ptype : PatternType)
  | underscoreInDef
  deriving DecidableEq

/-- A diagnostic appended to the module-wide sink, as `Problem`. -/
inductive Problem : Type where
  | runtimeError (e : RuntimeError)
  | unsupportedPattern (bad : BadPattern) (region : Region)
  deriving DecidableEq

/-- Modelled from the spec: an opaque-type definition looked up from the
scope; its payload is only threaded into the freshener, so it is carried
as an id. -/
abbrev OpqDef := Nat

/-- The environment: home module id, the per-module ident-interning
table (index = ident id), and the append-only diagnostics sink, as the
parts of `Env` this core touches. -/
structure Env where
  home : Nat
  identIds : List String
  problems : List Problem
  deriving DecidableEq

/-- Append one diagnostic to the sink (`env.problem`). -/
def Env.addProblem (env : Env) (p : Problem) : Env :=
  { env with problems := env.problems ++ [p] }

/-- `IdentIds::get_or_insert`: the existing id of an interned name, or a
fresh id for a newly interned one. -/
def Env.getOrInsert (env : Env) (name : String) : Nat × Env :=
  match env.identIds.findIdx? (· = name) with
  | some i => (i, env)
  | none => (env.identIds.length, { env with identIds := env.identIds ++ [name] })

/-- The name-resolution environment, as the parts of `Scope` this core
touches: bound idents and the opaque-type table. -/
structure Scope where
  idents : List (String × Symbol × Region)
  opqs : List (String × Symbol × OpqDef)
  deriving DecidableEq

/-- Look a name up among the scope's bound idents. -/
def Scope.lookup (scope : Scope) (name : String) : Option (Symbol × Region) :=
  (scope.idents.find? (fun e => e.1 = name)).map (·.2)

/-- The result of introducing a name into the scope. -/
inductive SIntro : Type where
  | ok (sym : Symbol)
  | shadow (originalRegion : Region) (shadowIdent : Loc String) (newSymbol : Symbol)
  deriving DecidableEq

/-- Modelled from the spec: `Scope::introduce` (`scope.rs` is not under
`src/`).  A fresh name is interned, bound and returned; a name already
bound is a collision, and a freshly minted second symbol (not the
pre-existing one) is returned together with the original binding's
region.  The ident table is passed and returned explicitly. -/
def Scope.introduce (scope : Scope) (home : Nat) (ids : List String)
    (name : String) (region : Region) : SIntro × Scope × List String :=
  match scope.lookup name with
  | some (_, originalRegion) =>
    (.shadow originalRegion ⟨region, name⟩ ⟨home, ids.length⟩, scope, ids ++ [name])
  | none =>
    (.ok ⟨home, ids.length⟩,
     { scope with idents := (name, ⟨home, ids.length⟩, region) :: scope.idents },
     ids ++ [name])

/-- Modelled from the spec: `Scope::ignore` interns a name without
binding it, minting a symbol for it. -/
def mintIgnored (home : Nat) (ids : List String) (name : String) :
    Symbol × List String :=
  (⟨home, ids.length⟩, ids ++ [name])

/-- Modelled from the spec: `Scope::lookup_opaque_ref` resolves an
opaque-type reference, or reports that it is not in scope. -/
def Scope.lookupOpqRef (scope : Scope) (name : String) (region : Region) :
    Except RuntimeError (Symbol × OpqDef) :=
  match scope.opqs.find? (fun e => e.1 = name) with
  | some (_, sym, d) => .ok (sym, d)
  | none => .error (.opqNotInScope ⟨region, name⟩)

/-- The threaded mutable state of one canonicalization: environment,
scope, and the fresh-type-variable counter (`VarStore`). -/
structure CanState where
  env : Env
  scope : Scope
  nextVar : Nat
  deriving DecidableEq

/-- `VarStore::fresh`: mint one fresh type variable. -/
def CanState.fresh (st : CanState) : Nat × CanState :=
  (st.nextVar, { st with nextVar := st.nextVar + 1 })

/-- Modelled from the spec: `freshen_opaque_def` (`annotation.rs` is not
under `src/`) instantiates the opaque's declared type parameters and
lambda-set placeholders into fresh copies; the type arguments, lambda
sets and specialized def type are opaque to this core. -/
def freshenOpqDef (st : CanState) (d : OpqDef) :
    (List (String × Nat) × List Nat × Nat) × CanState :=
  let (v, st1) := st.fresh
  (([], [], v + d * 0), st1)

/-- Modelled from the spec: `canonicalize_expr` (`expr.rs` is not under
`src/`) canonicalizes an optional field's default as a full expression;
its free-variable references are outside this core's claims, so it is
total and leaves the state unchanged. -/
def canonicalizeExpr (st : CanState) (region : Region) (e : Nat) :
    CanState × Loc Expr × Output :=
  (st, ⟨region, .defaultExpr e⟩, Output.empty)

/-- The partially flattened text of a string-literal pattern: text so
far, or the region of an interpolation that aborts the flattening. -/
inductive FlatAcc : Type where
  | text (buf : String)
  | interp (region : Region)
  deriving DecidableEq

/-- Flatten one line of string segments (`flatten_str_lines` inner
loop).  `none` models the `todo!` panic on a unicode-escape segment. -/
def flattenSegments (buf : String) : List StrSegment → Option FlatAcc
  | [] => some (.text buf)
  | .plaintext s :: rest => flattenSegments (buf ++ s) rest
  | .unicode _ :: _ => none
  | .interpolated r :: _ => some (.interp r)
  | .escapedChar c :: rest => flattenSegments (buf.push (unescapeChar c)) rest

/-- Flatten the lines of a string literal in source order. -/
def flattenLines (buf : String) : List (List StrSegment) → Option FlatAcc
  | [] => some (.text buf)
  | line :: rest =>
    match flattenSegments buf line with
    | none => none
    | some (.interp r) => some (.interp r)
    | some (.text buf1) => flattenLines buf1 rest

/-- `flatten_str_lines`: concatenate all plain text; an interpolation
collapses the whole literal into `UnsupportedPattern` at its own region;
a unicode segment hits `todo!` (modelled as `none`). -/
def flatten_str_lines (lines : List (List StrSegment)) : Option Pattern :=
  match flattenLines "" lines with
  | none => none
  | some (.text buf) => some (.strLiteral buf)
  | some (.interp r) => some (.unsupportedPattern r)

/-- `flatten_str_literal`. -/
def flatten_str_literal (lit : StrLiteral) : Option Pattern :=
  match lit with
  | .plainLine s => some (.strLiteral s)
  | .line segments => flatten_str_lines [segments]
  | .block lines => flatten_str_lines lines

/-- The value of one digit character in the given base. -/
def digitVal (base : NumBase) (c : Char) : Option Nat :=
  match base with
  | .binary => if '0' ≤ c ∧ c ≤ '1' then some (c.toNat - '0'.toNat) else none
  | .octal => if '0' ≤ c ∧ c ≤ '7' then some (c.toNat - '0'.toNat) else none
  | .decimal => if '0' ≤ c ∧ c ≤ '9' then some (c.toNat - '0'.toNat) else none
  | .hex =>
    if '0' ≤ c ∧ c ≤ '9' then some (c.toNat - '0'.toNat)
    else if 'a' ≤ c ∧ c ≤ 'f' then some (c.toNat - 'a'.toNat + 10)
    else if 'A' ≤ c ∧ c ≤ 'F' then some (c.toNat - 'A'.toNat + 10)
    else none

/-- Parse a nonempty digit string in the given base. -/
def parseDigitsGo (base : NumBase) (acc : Nat) : List Char → Option Nat
  | [] => some acc
  | c :: rest =>
    match digitVal base c with
    | none => none
    | some d =>
      parseDigitsGo base (acc * (match base with
        | .binary => 2 | .octal => 8 | .decimal => 10 | .hex => 16) + d) rest

/-- Parse a digit string (empty input is malformed). -/
def parseDigits (base : NumBase) : List Char → Option Nat
  | [] => none
  | l => parseDigitsGo base 0 l

/-- Modelled from the spec: `finish_parsing_base` (`num.rs` is not under
`src/`), the literal classifier for non-decimal bases.  A value within
`i128` range is returned signed; a larger value up to full unsigned
128-bit width is returned as a `U128`; anything else is malformed.  The
bound classification is opaque to this core. -/
def finish_parsing_base (s : String) (base : NumBase) (isNegative : Bool) :
    Option (IntValue × Nat) :=
  match parseDigits base s.toList with
  | none => none
  | some v =>
    if v ≤ 2 ^ 127 - 1 then some (.i128 (Int.ofNat v), 0)
    else if v ≤ 2 ^ 128 - 1 then some (.u128 v, 0)
    else if isNegative then none else none

/-- The result of classifying a decimal numeric literal, as
`ParsedNumResult`. -/
inductive ParsedNumResult : Type where
  | unknownNum (v : IntValue) (b : Nat)
  | intVal (v : IntValue) (b : Nat)
  | floatVal (f : String) (b : Nat)
  deriving DecidableEq

/-- Modelled from the spec: `finish_parsing_num` (`num.rs` is not under
`src/`), the literal classifier for decimal int/num literals. -/
def finish_parsing_num (s : String) : Option ParsedNumResult :=
  match s.toList with
  | '-' :: rest => (parseDigits .decimal rest).map
      (fun v => .unknownNum (.i128 (-(Int.ofNat v))) 0)
  | l => (parseDigits .decimal l).map (fun v => .unknownNum (.i128 (Int.ofNat v)) 0)

/-- Modelled from the spec: `finish_parsing_float` (`num.rs` is not
under `src/`), the literal classifier for float literals; the `f64`
value is carried as the literal text. -/
def finish_parsing_float (s : String) : Option (String × String × Nat) :=
  if s.toList.any (· = '.') ∧ s.toList.all (fun c => c.isDigit ∨ c = '.' ∨ c = '-') then
    some (s, s, 0)
  else none

/-- `unsupported_pattern`: report the bad context to the sink and
produce the `UnsupportedPattern` sentinel. -/
def unsupported_pattern (st : CanState) (ptype : PatternType) (region : Region) :
    CanState × Output × Loc Pattern :=
  ({ st with env := st.env.addProblem (.unsupportedPattern (.unsupported ptype) region) },
   Output.empty, ⟨region, .unsupportedPattern region⟩)

/-- `bad_underscore`: report an underscore in a definition and produce
the `UnsupportedPattern` sentinel. -/
def bad_underscore (st : CanState) (region : Region) :
    CanState × Output × Loc Pattern :=
  ({ st with env := st.env.addProblem (.unsupportedPattern .underscoreInDef region) },
   Output.empty, ⟨region, .unsupportedPattern region⟩)

/-- `malformed_pattern`: report a malformed literal and produce the
`MalformedPattern` sentinel. -/
def malformed_pattern (st : CanState) (problem : MalformedPatternProblem)
    (region : Region) : CanState × Output × Loc Pattern :=
  ({ st with env := st.env.addProblem (.runtimeError (.malformedPattern problem region)) },
   Output.empty, ⟨region, .malformedPattern problem region⟩)

mutual
/-- `canonicalize_pattern`: the context-sensitive transform from surface
to canonical pattern.  `none` models a panic (`todo!`/`unreachable!`/the
debug assertion); every non-panicking path yields exactly one canonical
node plus an `Output`. -/
def canonicalize_pattern (st : CanState) (ptype : PatternType) (pat : SPattern)
    (region : Region) : Option (CanState × Output × Loc Pattern) :=
  match pat with
  | .identifier name =>
    match Scope.introduce st.scope st.env.home st.env.identIds name region with
    | (.ok sym, scope1, ids1) =>
      some ({ st with scope := scope1, env := { st.env with identIds := ids1 } },
        Output.empty.insertBound sym, ⟨region, .identifier sym⟩)
    | (.shadow originalRegion shadowIdent newSymbol, scope1, ids1) =>
      let env1 := { st.env with identIds := ids1 }
      let env2 := env1.addProblem (.runtimeError (.shadowing originalRegion shadowIdent))
      some ({ st with scope := scope1, env := env2 },
        Output.empty.insertBound newSymbol,
        ⟨region, .shadowed originalRegion shadowIdent newSymbol⟩)
  | .globalTag name =>
    let (wholeVar, st1) := st.fresh
    let (extVar, st2) := st1.fresh
    some (st2, Output.empty, ⟨region, .appliedTag wholeVar extVar (.global name) []⟩)
  | .privateTag name =>
    let (identId, env1) := st.env.getOrInsert name
    let st1 : CanState := { st with env := env1 }
    let (wholeVar, st2) := st1.fresh
    let (extVar, st3) := st2.fresh
    some (st3, Output.empty,
      ⟨region, .appliedTag wholeVar extVar (.priv ⟨env1.home, identId⟩) []⟩)
  | .opqRef name =>
    some ({ st with env := st.env.addProblem (.runtimeError (.opqNotApplied ⟨region, name⟩)) },
      Output.empty, ⟨region, .unsupportedPattern region⟩)
  | .apply tag args =>
    match canonicalize_apply_args st ptype args with
    | none => none
    | some (st1, argsOut, canPatterns) =>
      match tag.value with
      | .globalTag name =>
        let (wholeVar, st2) := st1.fresh
        let (extVar, st3) := st2.fresh
        some (st3, argsOut,
          ⟨region, .appliedTag wholeVar extVar (.global name) canPatterns⟩)
      | .privateTag name =>
        let (identId, env2) := st1.env.getOrInsert name
        let st2 : CanState := { st1 with env := env2 }
        let (wholeVar, st3) := st2.fresh
        let (extVar, st4) := st3.fresh
        some (st4, argsOut,
          ⟨region, .appliedTag wholeVar extVar (.priv ⟨env2.home, identId⟩) canPatterns⟩)
      | .opqRef name =>
        match Scope.lookupOpqRef st1.scope name tag.region with
        | .ok (opq, opqDef) =>
          if canPatterns.isEmpty then
            none
          else if 1 < canPatterns.length then
            some ({ st1 with env :=
                st1.env.addProblem (.runtimeError (.opqAppliedToMultipleArgs region)) },
              argsOut, ⟨region, .unsupportedPattern region⟩)
          else
            match canPatterns.getLast? with
            | none => none
            | some argument =>
              let (freshened, st2) := freshenOpqDef st1 opqDef
              let out1 := (argsOut.insertRefTypeDef opq).insertTypeLookup opq
              let (wholeVar, st3) := st2.fresh
              some (st3, out1,
                ⟨region, .unwrappedOpq wholeVar opq argument
                  freshened.2.2 freshened.1 freshened.2.1⟩)
        | .error e =>
          some ({ st1 with env := st1.env.addProblem (.runtimeError e) },
            argsOut, ⟨region, .opqNotInScope ⟨tag.region, name⟩⟩)
      | _ => none
  | .floatLiteral s =>
    match ptype with
    | .whenBranch =>
      match finish_parsing_float s with
      | none => some (malformed_pattern st .malformedFloat region)
      | some (strWithoutSuffix, f, bound) =>
        let (v1, st1) := st.fresh
        let (v2, st2) := st1.fresh
        some (st2, Output.empty, ⟨region, .floatLiteral v1 v2 strWithoutSuffix f bound⟩)
    | .topLevelDef => some (unsupported_pattern st .topLevelDef region)
    | .defExpr => some (unsupported_pattern st .defExpr region)
    | .functionArg => some (unsupported_pattern st .functionArg region)
  | .underscore _ =>
    match ptype with
    | .whenBranch => some (st, Output.empty, ⟨region, .underscore⟩)
    | .functionArg => some (st, Output.empty, ⟨region, .underscore⟩)
    | .topLevelDef => some (bad_underscore st region)
    | .defExpr => some (bad_underscore st region)
  | .numLiteral s =>
    match ptype with
    | .whenBranch =>
      match finish_parsing_num s with
      | none => some (malformed_pattern st .malformedInt region)
      | some (.unknownNum value bound) =>
        let (v, st1) := st.fresh
        some (st1, Output.empty, ⟨region, .numLiteral v s value bound⟩)
      | some (.intVal value bound) =>
        let (v1, st1) := st.fresh
        let (v2, st2) := st1.fresh
        some (st2, Output.empty, ⟨region, .intLiteral v1 v2 s value bound⟩)
      | some (.floatVal f bound) =>
        let (v1, st1) := st.fresh
        let (v2, st2) := st1.fresh
        some (st2, Output.empty, ⟨region, .floatLiteral v1 v2 s f bound⟩)
    | .topLevelDef => some (unsupported_pattern st .topLevelDef region)
    | .defExpr => some (unsupported_pattern st .defExpr region)
    | .functionArg => some (unsupported_pattern st .functionArg region)
  | .nonBase10Literal digits base isNegative =>
    match ptype with
    | .whenBranch =>
      match finish_parsing_base digits base isNegative with
      | none => some (malformed_pattern st (.malformedBase base) region)
      | some (.u128 _, _) =>
        if isNegative then
          some (malformed_pattern st .malformedInt region)
        else
          none
      | some (.i128 n, bound) =>
        let signStr := if isNegative then "-" else ""
        let intStr := signStr ++ toString n
        let value : IntValue := if isNegative then .i128 (-n) else .i128 n
        let (v1, st1) := st.fresh
        let (v2, st2) := st1.fresh
        some (st2, Output.empty, ⟨region, .intLiteral v1 v2 intStr value bound⟩)
    | .topLevelDef => some (unsupported_pattern st .topLevelDef region)
    | .defExpr => some (unsupported_pattern st .defExpr region)
    | .functionArg => some (unsupported_pattern st .functionArg region)
  | .strLiteral lit =>
    match ptype with
    | .whenBranch =>
      match flatten_str_literal lit with
      | none => none
      | some p => some (st, Output.empty, ⟨region, p⟩)
    | .topLevelDef => some (unsupported_pattern st .topLevelDef region)
    | .defExpr => some (unsupported_pattern st .defExpr region)
    | .functionArg => some (unsupported_pattern st .functionArg region)
  | .singleQuote s =>
    match s.toList with
    | [c] => some (st, Output.empty, ⟨region, .singleQuote c⟩)
    | _ :: _ :: _ => some (malformed_pattern st .multipleCharsInSingleQuote region)
    | [] => some (malformed_pattern st .emptySingleQuote region)
  | .spaceBefore sub => canonicalize_pattern st ptype sub region
  | .spaceAfter sub => canonicalize_pattern st ptype sub region
  | .recordDestructure fields =>
    let (extVar, st1) := st.fresh
    let (wholeVar, st2) := st1.fresh
    match canonicalize_fields st2 ptype region fields with
    | none => none
    | some (st3, out, destructs, optErroneous) =>
      some (st3, out,
        ⟨region, optErroneous.getD (.recordDestructure wholeVar extVar destructs)⟩)
  | .requiredField _ _ => none
  | .optionalField _ _ => none
  | .malformed _ => some (malformed_pattern st .unknown region)
  | .malformedIdent _ code => some (malformed_pattern st (.badIdent code) region)
  | .qualifiedIdentifier => some (malformed_pattern st .qualifiedIdentifier region)

/-- The argument loop of the `Apply` case: canonicalize each argument,
merge its output, and pair it with a fresh type variable. -/
def canonicalize_apply_args (st : CanState) (ptype : PatternType)
    (args : List (Loc SPattern)) :
    Option (CanState × Output × List (Nat × Loc Pattern)) :=
  match args with
  | [] => some (st, Output.empty, [])
  | ⟨argRegion, argPat⟩ :: rest =>
    match canonicalize_pattern st ptype argPat argRegion with
    | none => none
    | some (st1, argOut, canPat) =>
      let (v, st2) := st1.fresh
      match canonicalize_apply_args st2 ptype rest with
      | none => none
      | some (st3, restOut, restPats) =>
        some (st3, argOut.union restOut, (v, canPat) :: restPats)

/-- The field loop of the `RecordDestructure` case.  `region` is the
whole destructure's region (used for scope introduction, as in the
source); the returned `Option Pattern` is the `opt_erroneous` slot, the
most recently detected shadowing sentinel. -/
def canonicalize_fields (st : CanState) (ptype : PatternType) (region : Region)
    (fields : List (Loc SPattern)) :
    Option (CanState × Output × List (Loc RecordDestruct) × Option Pattern) :=
  match fields with
  | [] => some (st, Output.empty, [], none)
  | ⟨fieldRegion, .identifier label⟩ :: rest =>
    match Scope.introduce st.scope st.env.home st.env.identIds label region with
    | (.ok sym, scope1, ids1) =>
      let st1 : CanState := { st with scope := scope1, env := { st.env with identIds := ids1 } }
      let (dvar, st2) := st1.fresh
      match canonicalize_fields st2 ptype region rest with
      | none => none
      | some (st3, restOut, restDs, restErr) =>
        some (st3, (Output.empty.insertBound sym).union restOut,
          ⟨fieldRegion, .mk dvar label sym .required⟩ :: restDs, restErr)
    | (.shadow originalRegion shadowIdent newSymbol, scope1, ids1) =>
      let env1 := { st.env with identIds := ids1 }
      let env2 := env1.addProblem (.runtimeError (.shadowing originalRegion shadowIdent))
      let st1 : CanState := { st with scope := scope1, env := env2 }
      match canonicalize_fields st1 ptype region rest with
      | none => none
      | some (st2, restOut, restDs, restErr) =>
        some (st2, restOut, restDs,
          match restErr with
          | some e => some e
          | none => some (.shadowed originalRegion shadowIdent newSymbol))
  | ⟨fieldRegion, .requiredField label ⟨guardRegion, guardPat⟩⟩ :: rest =>
    let (sym, ids1) := mintIgnored st.env.home st.env.identIds label
    let st1 : CanState := { st with env := { st.env with identIds := ids1 } }
    match canonicalize_pattern st1 ptype guardPat guardRegion with
    | none => none
    | some (st2, guardOut, canGuard) =>
      let (dvar, st3) := st2.fresh
      let (gvar, st4) := st3.fresh
      match canonicalize_fields st4 ptype region rest with
      | none => none
      | some (st5, restOut, restDs, restErr) =>
        some (st5, guardOut.union restOut,
          ⟨fieldRegion, .mk dvar label sym (.guard gvar canGuard)⟩ :: restDs, restErr)
  | ⟨fieldRegion, .optionalField label locDefault⟩ :: rest =>
    match Scope.introduce st.scope st.env.home st.env.identIds label region with
    | (.ok sym, scope1, ids1) =>
      let st1 : CanState := { st with scope := scope1, env := { st.env with identIds := ids1 } }
      let (st2, canDefault, defOut) := canonicalizeExpr st1 locDefault.region locDefault.value
      let (dvar, st3) := st2.fresh
      let (ovar, st4) := st3.fresh
      match canonicalize_fields st4 ptype region rest with
      | none => none
      | some (st5, restOut, restDs, restErr) =>
        some (st5, ((Output.empty.insertBound sym).union defOut).union restOut,
          ⟨fieldRegion, .mk dvar label sym (.optional ovar canDefault)⟩ :: restDs, restErr)
    | (.shadow originalRegion shadowIdent newSymbol, scope1, ids1) =>
      let env1 := { st.env with identIds := ids1 }
      let env2 := env1.addProblem (.runtimeError (.shadowing originalRegion shadowIdent))
      let st1 : CanState := { st with scope := scope1, env := env2 }
      match canonicalize_fields st1 ptype region rest with
      | none => none
      | some (st2, restOut, restDs, restErr) =>
        some (st2, restOut, restDs,
          match restErr with
          | some e => some e
          | none => some (.shadowed originalRegion shadowIdent newSymbol))
  | _ :: _ => none
end

mutual
/-- `symbols_from_pattern_help`: the unordered extraction — the symbols
a canonical pattern introduces, in push order. -/
def symbols_from_pattern_help (pattern : Pattern) : List Symbol :=
  match pattern with
  | .identifier sym => [sym]
  | .shadowed _ _ sym => [sym]
  | .abilityMemberSpecialization ident specializes => [ident, specializes]
  | .appliedTag _ _ _ arguments => symbols_from_tag_args arguments
  | .unwrappedOpq _ opq (_, ⟨_, nested⟩) _ _ _ =>
    opq :: symbols_from_pattern_help nested
  | .recordDestructure _ _ destructs => symbols_from_destructs destructs
  | .numLiteral _ _ _ _ => []
  | .intLiteral _ _ _ _ _ => []
  | .floatLiteral _ _ _ _ _ => []
  | .strLiteral _ => []
  | .singleQuote _ => []
  | .underscore => []
  | .malformedPattern _ _ => []
  | .unsupportedPattern _ => []
  | .opqNotInScope _ => []

/-- The unordered extraction over a tag's argument list. -/
def symbols_from_tag_args (arguments : List (Nat × Loc Pattern)) : List Symbol :=
  match arguments with
  | [] => []
  | (_, ⟨_, nested⟩) :: rest =>
    symbols_from_pattern_help nested ++ symbols_from_tag_args rest

/-- The unordered extraction over record destructs: a guarded field
contributes only the symbols inside its guard, any other field its own
symbol. -/
def symbols_from_destructs (destructs : List (Loc RecordDestruct)) : List Symbol :=
  match destructs with
  | [] => []
  | ⟨_, .mk _ _ symbol typ⟩ :: rest =>
    match typ with
    | .guard _ ⟨_, subpattern⟩ =>
      symbols_from_pattern_help subpattern ++ symbols_from_destructs rest
    | _ => symbol :: symbols_from_destructs rest
end

/-- `symbols_from_pattern`. -/
def symbols_from_pattern (pattern : Pattern) : List Symbol :=
  symbols_from_pattern_help pattern

/-- The ordered extraction over record destructs: every destruct
contributes its own symbol, paired with the destruct's region. -/
def bindings_from_destructs (destructs : List (Loc RecordDestruct)) :
    List (Symbol × Region) :=
  match destructs with
  | [] => []
  | ⟨dregion, .mk _ _ symbol _⟩ :: rest =>
    (symbol, dregion) :: bindings_from_destructs rest

mutual
/-- `add_bindings_from_patterns`: the ordered extraction — (symbol,
owning-pattern-region) pairs, in push order. -/
def add_bindings_from_patterns (region : Region) (pattern : Pattern) :
    List (Symbol × Region) :=
  match pattern with
  | .identifier sym => [(sym, region)]
  | .shadowed _ _ sym => [(sym, region)]
  | .abilityMemberSpecialization ident _ => [(ident, region)]
  | .appliedTag _ _ _ arguments => bindings_from_tag_args arguments
  | .unwrappedOpq _ opq (_, ⟨argRegion, nested⟩) _ _ _ =>
    add_bindings_from_patterns argRegion nested ++ [(opq, region)]
  | .recordDestructure _ _ destructs => bindings_from_destructs destructs
  | .numLiteral _ _ _ _ => []
  | .intLiteral _ _ _ _ _ => []
  | .floatLiteral _ _ _ _ _ => []
  | .strLiteral _ => []
  | .singleQuote _ => []
  | .underscore => []
  | .malformedPattern _ _ => []
  | .unsupportedPattern _ => []
  | .opqNotInScope _ => []

/-- The ordered extraction over a tag's argument list. -/
def bindings_from_tag_args (arguments : List (Nat × Loc Pattern)) :
    List (Symbol × Region) :=
  match arguments with
  | [] => []
  | (_, ⟨argRegion, nested⟩) :: rest =>
    add_bindings_from_patterns argRegion nested ++ bindings_from_tag_args rest
end

/-- `bindings_from_patterns` over a sequence of located patterns. -/
def bindings_from_patterns (locPatterns : List (Loc Pattern)) :
    List (Symbol × Region) :=
  match locPatterns with
  | [] => []
  | ⟨r, p⟩ :: rest => add_bindings_from_patterns r p ++ bindings_from_patterns rest

mutual
/-- A surface pattern the parser can produce: apply heads are tag or
opaque references and applications are nonempty; record fields are bare
identifiers, guarded required fields, or optional fields; field-form
nodes do not occur outside a record destructure. -/
def SPattern.wfB : SPattern → Bool
  | .identifier _ => true
  | .globalTag _ => true
  | .privateTag _ => true
  | .opqRef _ => true
  | .apply tag args =>
    (match tag.value with
     | .globalTag _ => true
     | .privateTag _ => true
     | .opqRef _ => true
     | _ => false)
    && !args.isEmpty && SPattern.wfArgsB args
  | .floatLiteral _ => true
  | .numLiteral _ => true
  | .nonBase10Literal _ _ _ => true
  | .strLiteral _ => true
  | .underscore _ => true
  | .singleQuote _ => true
  | .recordDestructure fields => SPattern.wfFieldsB fields
  | .requiredField _ _ => false
  | .optionalField _ _ => false
  | .spaceBefore sub => SPattern.wfB sub
  | .spaceAfter sub => SPattern.wfB sub
  | .malformed _ => true
  | .malformedIdent _ _ => true
  | .qualifiedIdentifier => true

/-- Well-formedness of an application's argument list. -/
def SPattern.wfArgsB : List (Loc SPattern) → Bool
  | [] => true
  | ⟨_, p⟩ :: rest => SPattern.wfB p && SPattern.wfArgsB rest

/-- Well-formedness of a record destructure's field list. -/
def SPattern.wfFieldsB : List (Loc SPattern) → Bool
  | [] => true
  | ⟨_, .identifier _⟩ :: rest => SPattern.wfFieldsB rest
  | ⟨_, .requiredField _ ⟨_, g⟩⟩ :: rest => SPattern.wfB g && SPattern.wfFieldsB rest
  | ⟨_, .optionalField _ _⟩ :: rest => SPattern.wfFieldsB rest
  | _ :: _ => false
end

/-- A string segment that does not hit the unimplemented unicode-escape
case. -/
def segNoUnicode : StrSegment → Bool
  | .unicode _ => false
  | _ => true

/-- A string literal with no unicode-escape segment. -/
def strLitNoUnicode : StrLiteral → Bool
  | .plainLine _ => true
  | .line segments => segments.all segNoUnicode
  | .block lines => lines.all (·.all segNoUnicode)

mutual
/-- A surface pattern that avoids the canonicalizer's panic points: no
unicode-escape string segment, and no non-decimal integer literal whose
classified value sits at full unsigned 128-bit width with a
non-negative sign. -/
def SPattern.noPanicB : SPattern → Bool
  | .apply _ args => SPattern.noPanicArgsB args
  | .strLiteral lit => strLitNoUnicode lit
  | .nonBase10Literal digits base isNegative =>
    (match finish_parsing_base digits base isNegative with
     | some (.u128 _, _) => isNegative
     | _ => true)
  | .recordDestructure fields => SPattern.noPanicFieldsB fields
  | .requiredField _ ⟨_, g⟩ => SPattern.noPanicB g
  | .spaceBefore sub => SPattern.noPanicB sub
  | .spaceAfter sub => SPattern.noPanicB sub
  | _ => true

/-- Panic-freedom of an application's argument list. -/
def SPattern.noPanicArgsB : List (Loc SPattern) → Bool
  | [] => true
  | ⟨_, p⟩ :: rest => SPattern.noPanicB p && SPattern.noPanicArgsB rest

/-- Panic-freedom of a record destructure's field list. -/
def SPattern.noPanicFieldsB : List (Loc SPattern) → Bool
  | [] => true
  | ⟨_, .requiredField _ ⟨_, g⟩⟩ :: rest =>
    SPattern.noPanicB g && SPattern.noPanicFieldsB rest
  | _ :: rest => SPattern.noPanicFieldsB rest
end

mutual
/-- The names a surface pattern introduces as bindings: identifiers,
bare and optional record-field labels, and whatever a guard binds
inside; a guarded field's own label is not among them. -/
def SPattern.bindNames : SPattern → List String
  | .identifier name => [name]
  | .apply _ args => SPattern.bindNamesArgs args
  | .recordDestructure fields => SPattern.bindNamesFields fields
  | .spaceBefore sub => SPattern.bindNames sub
  | .spaceAfter sub => SPattern.bindNames sub
  | _ => []

/-- Binding names of an application's argument list. -/
def SPattern.bindNamesArgs : List (Loc SPattern) → List String
  | [] => []
  | ⟨_, p⟩ :: rest => SPattern.bindNames p ++ SPattern.bindNamesArgs rest

/-- Binding names of a record destructure's field list. -/
def SPattern.bindNamesFields : List (Loc SPattern) → List String
  | [] => []
  | ⟨_, .identifier label⟩ :: rest => label :: SPattern.bindNamesFields rest
  | ⟨_, .requiredField _ ⟨_, g⟩⟩ :: rest =>
    SPattern.bindNames g ++ SPattern.bindNamesFields rest
  | ⟨_, .optionalField label _⟩ :: rest => label :: SPattern.bindNamesFields rest
  | _ :: rest => SPattern.bindNamesFields rest
end

mutual
/-- A canonical pattern containing no ability-member specialization and
no guarded record destruct — the fragment on which the two extraction
walks agree. -/
def Pattern.plainB : Pattern → Bool
  | .abilityMemberSpecialization _ _ => false
  | .appliedTag _ _ _ arguments => Pattern.plainArgsB arguments
  | .unwrappedOpq _ _ (_, ⟨_, nested⟩) _ _ _ => Pattern.plainB nested
  | .recordDestructure _ _ destructs => Pattern.plainDestructsB destructs
  | _ => true

/-- Plainness of a tag's argument list. -/
def Pattern.plainArgsB : List (Nat × Loc Pattern) → Bool
  | [] => true
  | (_, ⟨_, p⟩) :: rest => Pattern.plainB p && Pattern.plainArgsB rest

/-- Plainness of a destruct list: no guarded field. -/
def Pattern.plainDestructsB : List (Loc RecordDestruct) → Bool
  | [] => true
  | ⟨_, .mk _ _ _ .required⟩ :: rest => Pattern.plainDestructsB rest
  | ⟨_, .mk _ _ _ (.optional _ _)⟩ :: rest => Pattern.plainDestructsB rest
  | ⟨_, .mk _ _ _ (.guard _ _)⟩ :: _ => false
end

/-- The shadowing conflicts the record-destructure field loop detects,
in detection order, together with the final state: a replay of the
loop's state evolution (scope introductions, the ignored interning and
guard canonicalization of guarded fields, the default canonicalization
of optional fields) that records the conflicting fields instead of
building destructs.  `none` mirrors the loop's panic points. -/
def fieldConflicts (ptype : PatternType) (region : Region) :
    CanState → List (Loc SPattern) →
    Option (CanState × List (Region × Loc String × Symbol))
  | st, [] => some (st, [])
  | st, ⟨_, .identifier label⟩ :: rest =>
    (match Scope.introduce st.scope st.env.home st.env.identIds label region with
     | (.ok _, scope1, ids1) =>
       fieldConflicts ptype region
         ⟨⟨st.env.home, ids1, st.env.problems⟩, scope1, st.nextVar + 1⟩ rest
     | (.shadow o sh n, scope1, ids1) =>
       (fieldConflicts ptype region
         ⟨⟨st.env.home, ids1,
             st.env.problems ++ [.runtimeError (.shadowing o sh)]⟩,
           scope1, st.nextVar⟩ rest).map
         (fun r => (r.1, (o, sh, n) :: r.2)))
  | st, ⟨_, .requiredField label ⟨guardRegion, guardPat⟩⟩ :: rest =>
    (match canonicalize_pattern
        ⟨⟨st.env.home, st.env.identIds ++ [label], st.env.problems⟩,
          st.scope, st.nextVar⟩ ptype guardPat guardRegion with
     | none => none
     | some (st2, _, _) =>
       fieldConflicts ptype region { st2 with nextVar := st2.nextVar + 2 } rest)
  | st, ⟨_, .optionalField label _⟩ :: rest =>
    (match Scope.introduce st.scope st.env.home st.env.identIds label region with
     | (.ok _, scope1, ids1) =>
       fieldConflicts ptype region
         ⟨⟨st.env.home, ids1, st.env.problems⟩, scope1, st.nextVar + 2⟩ rest
     | (.shadow o sh n, scope1, ids1) =>
       (fieldConflicts ptype region
         ⟨⟨st.env.home, ids1,
             st.env.problems ++ [.runtimeError (.shadowing o sh)]⟩,
           scope1, st.nextVar⟩ rest).map
         (fun r => (r.1, (o, sh, n) :: r.2)))
  | _, _ :: _ => none

/-- Scope well-formedness: every symbol bound in the scope was minted
from the ident table, so its id is below the table's length. -/
def ScopeWf (st : CanState) : Prop :=
  ∀ e ∈ st.scope.idents, (e.2.1).identId < st.env.identIds.length

/-- Opaque-table well-formedness relative to a lowercase label: opaque
symbols were minted from the ident table and none of them is interned
under the label (opaque names are uppercase). -/
def OpqAvoids (st : CanState) (label : String) : Prop :=
  ∀ e ∈ st.scope.opqs,
    (e.2.1).identId < st.env.identIds.length ∧
    ∀ n, st.env.identIds[(e.2.1).identId]? = some n → n ≠ label

/-- A symbol freshly minted during a canonicalization step that starts
at `env0` and ends at `env1`: it lives in the home module, its ident id
was created during the step, and the name it is interned under is one
of the given binder names. -/
def MintedIn (env0 env1 : Env) (names : List String) (s : Symbol) : Prop :=
  s.module = env0.home ∧ env0.identIds.length ≤ s.identId ∧
  s.identId < env1.identIds.length ∧
  ∃ n, env1.identIds[s.identId]? = some n ∧ n ∈ names

/-- A symbol that is either an opaque symbol of the scope's opaque
table or was freshly minted during the step. -/
def OpqOrMinted (scope : Scope) (env0 env1 : Env) (names : List String)
    (s : Symbol) : Prop :=
  (∃ e ∈ scope.opqs, e.2.1 = s) ∨ MintedIn env0 env1 names s

/-- An empty canonicalization state: home module 0, nothing interned,
no diagnostics, empty scope, first fresh variable 0. -/
def st0 : CanState := ⟨⟨0, [], []⟩, ⟨[], []⟩, 0⟩

/-- C3 (counterexample): a single-quoted character literal under
`TopLevelDef` does not yield `UnsupportedPattern` — it canonicalizes to
`SingleQuote 'a'` with no diagnostic, so char literals are not
context-gated. -/
theorem c3_counterexample :
    canonicalize_pattern st0 .topLevelDef (.singleQuote "a") 7 =
      some (st0, Output.empty, ⟨7, .singleQuote 'a'⟩) ∧
    Pattern.singleQuote 'a' ≠ Pattern.unsupportedPattern 7 := by
  refine ⟨rfl, fun h => ?_⟩
  cases h

/-- C3 (amended): single-quoted character literal patterns are never
context-gated: in every context, a one-character literal canonicalizes
to `SingleQuote` with no diagnostic and no state change. -/
theorem c3_single_quote_ungated (st : CanState) (ptype : PatternType)
    (s : String) (region : Region) (c : Char) (h : s.toList = [c]) :
    canonicalize_pattern st ptype (.singleQuote s) region =
      some (st, Output.empty, ⟨region, .singleQuote c⟩) := by
  unfold canonicalize_pattern
  rw [h]

/-- C3 witness: the amended theorem at `'a'` under `DefExpr`. -/
theorem c3_single_quote_ungated_witness :
    canonicalize_pattern st0 .defExpr (.singleQuote "a") 9 =
      some (st0, Output.empty, ⟨9, .singleQuote 'a'⟩) :=
  c3_single_quote_ungated st0 .defExpr "a" 9 'a' (by decide)

/-- C9: a non-decimal-base integer literal under `WhenBranch` whose
classified value is at full unsigned 128-bit width with the negative
sign flag yields `MalformedPattern` with a malformed-int reason, and
appends the matching diagnostic — it is never wrapped into an
`IntLiteral`. -/
theorem c9_negative_u128_malformed (st : CanState) (digits : String)
    (base : NumBase) (region : Region) (v bound : Nat)
    (h : finish_parsing_base digits base true = some (.u128 v, bound)) :
    canonicalize_pattern st .whenBranch (.nonBase10Literal digits base true) region =
      some (malformed_pattern st .malformedInt region) ∧
    (malformed_pattern st .malformedInt region).2.2.value =
      Pattern.malformedPattern .malformedInt region ∧
    (malformed_pattern st .malformedInt region).1.env.problems =
      st.env.problems ++ [.runtimeError (.malformedPattern .malformedInt region)] := by
  refine ⟨?_, rfl, rfl⟩
  unfold canonicalize_pattern
  rw [h]
  simp

/-- C9 witness: the hex literal for 2^127 (one above `i128`'s maximum)
with the negative sign flag. -/
theorem c9_negative_u128_malformed_witness :
    canonicalize_pattern st0 .whenBranch
        (.nonBase10Literal "80000000000000000000000000000000" .hex true) 3 =
      some (malformed_pattern st0 .malformedInt 3) :=
  (c9_negative_u128_malformed st0 "80000000000000000000000000000000" .hex 3
    (2 ^ 127) 0 (by decide)).1

/-- C10: tag-constructor patterns are never context-gated: in every
context a bare global or private tag canonicalizes to `AppliedTag` with
two freshly minted type variables, the resolved tag name and no
arguments, with an empty output and no diagnostic appended. -/
theorem c10_tags_never_gated :
    (∀ (st : CanState) (ptype : PatternType) (name : String) (region : Region),
      canonicalize_pattern st ptype (.globalTag name) region =
        some ({ st with nextVar := st.nextVar + 2 }, Output.empty,
          ⟨region, .appliedTag st.nextVar (st.nextVar + 1) (.global name) []⟩)) ∧
    (∀ (st : CanState) (ptype : PatternType) (name : String) (region : Region),
      canonicalize_pattern st ptype (.privateTag name) region =
        some ({ st with env := (st.env.getOrInsert name).2, nextVar := st.nextVar + 2 },
          Output.empty,
          ⟨region, .appliedTag st.nextVar (st.nextVar + 1)
            (.priv ⟨st.env.home, (st.env.getOrInsert name).1⟩) []⟩)) ∧
    (∀ (env : Env) (name : String),
      ((env.getOrInsert name).2).problems = env.problems ∧
      ((env.getOrInsert name).2).home = env.home) := by
  refine ⟨fun st ptype name region => rfl, fun st ptype name region => ?_,
    fun env name => ?_⟩
  · unfold canonicalize_pattern Env.getOrInsert
    cases h : st.env.identIds.findIdx? (fun x => decide (x = name)) <;>
      simp [h, CanState.fresh]
  · unfold Env.getOrInsert
    cases h : env.identIds.findIdx? (fun x => decide (x = name)) <;> simp [h]

/-- C8: context gating of numeric/string literals and underscore —
float, int/num, non-base-10 and string literal patterns yield
`UnsupportedPattern` (with the offending-context diagnostic) under
`TopLevelDef`, `DefExpr` and `FunctionArg`, and canonicalize to their
literal nodes under `WhenBranch`; `Underscore` canonicalizes under
`WhenBranch` and `FunctionArg` and yields `UnsupportedPattern` (with
the underscore-in-definition diagnostic) under `TopLevelDef` and
`DefExpr`. -/
theorem c8_literal_context_gating :
    (∀ (st : CanState) (s : String) (region : Region) (ptype : PatternType),
      ptype ≠ .whenBranch →
      canonicalize_pattern st ptype (.floatLiteral s) region =
        some (unsupported_pattern st ptype region)) ∧
    (∀ (st : CanState) (s : String) (region : Region) (ptype : PatternType),
      ptype ≠ .whenBranch →
      canonicalize_pattern st ptype (.numLiteral s) region =
        some (unsupported_pattern st ptype region)) ∧
    (∀ (st : CanState) (digits : String) (base : NumBase) (neg : Bool)
        (region : Region) (ptype : PatternType),
      ptype ≠ .whenBranch →
      canonicalize_pattern st ptype (.nonBase10Literal digits base neg) region =
        some (unsupported_pattern st ptype region)) ∧
    (∀ (st : CanState) (lit : StrLiteral) (region : Region) (ptype : PatternType),
      ptype ≠ .whenBranch →
      canonicalize_pattern st ptype (.strLiteral lit) region =
        some (unsupported_pattern st ptype region)) ∧
    (∀ (st : CanState) (s : String) (region : Region) (sws f : String) (bound : Nat),
      finish_parsing_float s = some (sws, f, bound) →
      canonicalize_pattern st .whenBranch (.floatLiteral s) region =
        some ({ st with nextVar := st.nextVar + 2 }, Output.empty,
          ⟨region, .floatLiteral st.nextVar (st.nextVar + 1) sws f bound⟩)) ∧
    (∀ (st : CanState) (s : String) (region : Region) (v : IntValue) (bound : Nat),
      finish_parsing_num s = some (.unknownNum v bound) →
      canonicalize_pattern st .whenBranch (.numLiteral s) region =
        some ({ st with nextVar := st.nextVar + 1 }, Output.empty,
          ⟨region, .numLiteral st.nextVar s v bound⟩)) ∧
    (∀ (st : CanState) (digits : String) (base : NumBase) (neg : Bool)
        (region : Region) (n : Int) (bound : Nat),
      finish_parsing_base digits base neg = some (.i128 n, bound) →
      canonicalize_pattern st .whenBranch (.nonBase10Literal digits base neg) region =
        some ({ st with nextVar := st.nextVar + 2 }, Output.empty,
          ⟨region, .intLiteral st.nextVar (st.nextVar + 1)
            ((if neg then "-" else "") ++ toString n)
            (if neg then .i128 (-n) else .i128 n) bound⟩)) ∧
    (∀ (st : CanState) (s : String) (region : Region),
      canonicalize_pattern st .whenBranch (.strLiteral (.plainLine s)) region =
        some (st, Output.empty, ⟨region, .strLiteral s⟩)) ∧
    (∀ (st : CanState) (name : String) (region : Region),
      canonicalize_pattern st .whenBranch (.underscore name) region =
        some (st, Output.empty, ⟨region, .underscore⟩)) ∧
    (∀ (st : CanState) (name : String) (region : Region),
      canonicalize_pattern st .functionArg (.underscore name) region =
        some (st, Output.empty, ⟨region, .underscore⟩)) ∧
    (∀ (st : CanState) (name : String) (region : Region),
      canonicalize_pattern st .topLevelDef (.underscore name) region =
        some (bad_underscore st region)) ∧
    (∀ (st : CanState) (name : String) (region : Region),
      canonicalize_pattern st .defExpr (.underscore name) region =
        some (bad_underscore st region)) := by
  refine ⟨fun st s region ptype h => ?_, fun st s region ptype h => ?_,
    fun st digits base neg region ptype h => ?_, fun st lit region ptype h => ?_,
    fun st s region sws f bound h => ?_, fun st s region v bound h => ?_,
    fun st digits base neg region n bound h => ?_, fun st s region => rfl,
    fun st name region => rfl, fun st name region => rfl,
    fun st name region => rfl, fun st name region => rfl⟩
  · cases ptype <;> first | exact absurd rfl h | rfl
  · cases ptype <;> first | exact absurd rfl h | rfl
  · cases ptype <;> first | exact absurd rfl h | rfl
  · cases ptype <;> first | exact absurd rfl h | rfl
  · unfold canonicalize_pattern
    rw [h]
    simp [CanState.fresh]
  · unfold canonicalize_pattern
    rw [h]
    simp [CanState.fresh]
  · unfold canonicalize_pattern
    rw [h]
    simp [CanState.fresh]

/-- C8 witness: each gated literal kind at a concrete input — a float
and a string under `TopLevelDef` are unsupported, and the same float, a
decimal int and a hex int canonicalize to literal nodes under
`WhenBranch`. -/
theorem c8_literal_context_gating_witness :
    canonicalize_pattern st0 .topLevelDef (.floatLiteral "1.5") 1 =
      some (unsupported_pattern st0 .topLevelDef 1) ∧
    canonicalize_pattern st0 .functionArg (.strLiteral (.plainLine "hi")) 2 =
      some (unsupported_pattern st0 .functionArg 2) ∧
    canonicalize_pattern st0 .whenBranch (.floatLiteral "1.5") 3 =
      some ({ st0 with nextVar := st0.nextVar + 2 }, Output.empty,
        ⟨3, .floatLiteral st0.nextVar (st0.nextVar + 1) "1.5" "1.5" 0⟩) ∧
    canonicalize_pattern st0 .whenBranch (.numLiteral "42") 4 =
      some ({ st0 with nextVar := st0.nextVar + 1 }, Output.empty,
        ⟨4, .numLiteral st0.nextVar "42" (.i128 42) 0⟩) ∧
    canonicalize_pattern st0 .whenBranch (.nonBase10Literal "2a" .hex false) 5 =
      some ({ st0 with nextVar := st0.nextVar + 2 }, Output.empty,
        ⟨5, .intLiteral st0.nextVar (st0.nextVar + 1)
          ((if false then "-" else "") ++ toString (42 : Int))
          (if false then .i128 (-(42 : Int)) else .i128 42) 0⟩) :=
  ⟨c8_literal_context_gating.1 st0 "1.5" 1 .topLevelDef (by decide),
   (c8_literal_context_gating.2.2.2.1) st0 (.plainLine "hi") 2 .functionArg (by decide),
   (c8_literal_context_gating.2.2.2.2.1) st0 "1.5" 3 "1.5" "1.5" 0 (by decide),
   (c8_literal_context_gating.2.2.2.2.2.1) st0 "42" 4 (.i128 42) 0 (by decide),
   (c8_literal_context_gating.2.2.2.2.2.2.1) st0 "2a" .hex false 5 42 0 (by decide)⟩

/-- A state whose scope has one opaque type, `Age`, registered. -/
def stOpq : CanState := ⟨⟨0, [], []⟩, ⟨[], [("Age", ⟨9, 9⟩, 0)]⟩, 0⟩

/-- C4 (counterexample): an opaque reference applied to two arguments
with the opaque name not found by lookup yields `OpaqueNotInScope`, not
`UnsupportedPattern` — the multiple-arguments half of the claim is not
independent of scope contents. -/
theorem c4_counterexample :
    (canonicalize_pattern st0 .whenBranch
        (.apply ⟨0, .opqRef "Age"⟩ [⟨1, .underscore ""⟩, ⟨2, .underscore ""⟩]) 3).map
      (fun r => r.2.2.value) = some (.opqNotInScope ⟨0, "Age"⟩) ∧
    Pattern.opqNotInScope ⟨0, "Age"⟩ ≠ Pattern.unsupportedPattern 3 := by
  refine ⟨rfl, fun h => ?_⟩
  cases h

/-- C4 (amended): an opaque reference applied to 0 arguments always
yields `UnsupportedPattern` with the opaque-not-applied diagnostic,
independent of scope contents; an opaque reference whose lookup
succeeds and whose argument list canonicalizes to 2 or more arguments
yields `UnsupportedPattern` with the multiple-arguments diagnostic. -/
theorem c4_opq_arity_law :
    (∀ (st : CanState) (ptype : PatternType) (name : String) (region : Region),
      canonicalize_pattern st ptype (.opqRef name) region =
        some ({ st with env :=
            st.env.addProblem (.runtimeError (.opqNotApplied ⟨region, name⟩)) },
          Output.empty, ⟨region, .unsupportedPattern region⟩)) ∧
    (∀ (st : CanState) (ptype : PatternType) (tagRegion : Region) (name : String)
        (args : List (Loc SPattern)) (region : Region) (st1 : CanState)
        (out : Output) (cps : List (Nat × Loc Pattern)) (opq : Symbol) (d : OpqDef),
      canonicalize_apply_args st ptype args = some (st1, out, cps) →
      1 < cps.length →
      Scope.lookupOpqRef st1.scope name tagRegion = .ok (opq, d) →
      canonicalize_pattern st ptype (.apply ⟨tagRegion, .opqRef name⟩ args) region =
        some ({ st1 with env :=
            st1.env.addProblem (.runtimeError (.opqAppliedToMultipleArgs region)) },
          out, ⟨region, .unsupportedPattern region⟩)) := by
  refine ⟨fun st ptype name region => rfl,
    fun st ptype tagRegion name args region st1 out cps opq d h1 h2 h3 => ?_⟩
  have hne : cps.isEmpty = false := by
    cases cps with
    | nil => simp at h2
    | cons a l => rfl
  unfold canonicalize_pattern
  rw [h1]
  simp only [h3, hne, h2]
  simp

/-- The state after canonicalizing two underscore arguments from
`stOpq`: two type variables minted. -/
def stOpq2 : CanState := ⟨⟨0, [], []⟩, ⟨[], [("Age", ⟨9, 9⟩, 0)]⟩, 2⟩

/-- C4 witness: the amended theorem with `Age` registered in the scope
and two underscore arguments under `WhenBranch`. -/
theorem c4_opq_arity_law_witness :
    canonicalize_pattern stOpq .whenBranch
        (.apply ⟨0, .opqRef "Age"⟩ [⟨1, .underscore ""⟩, ⟨2, .underscore ""⟩]) 3 =
      some ({ stOpq2 with env :=
          stOpq2.env.addProblem (.runtimeError (.opqAppliedToMultipleArgs 3)) },
        Output.empty.union (Output.empty.union Output.empty),
        ⟨3, .unsupportedPattern 3⟩) :=
  c4_opq_arity_law.2 stOpq .whenBranch 0 "Age"
    [⟨1, .underscore ""⟩, ⟨2, .underscore ""⟩] 3 stOpq2
    (Output.empty.union (Output.empty.union Output.empty))
    [(0, ⟨1, .underscore⟩), (1, ⟨2, .underscore⟩)] ⟨9, 9⟩ 0 rfl (by decide) rfl

/-- C6: meeting an identifier whose name is already bound appends
exactly one shadowing diagnostic, produces
`Shadowed(original_region, shadowing_name, new_symbol)` where the new
symbol is the freshly minted second symbol (distinct from the
pre-existing one), binds the new symbol into the output, and symbol
extraction over the result returns exactly the new symbol. -/
theorem c6_shadow_law (st : CanState) (ptype : PatternType) (name : String)
    (region : Region) (origSym : Symbol) (origRegion : Region)
    (hlook : Scope.lookup st.scope name = some (origSym, origRegion))
    (hwf : ScopeWf st) :
    ∃ stR : CanState,
      canonicalize_pattern st ptype (.identifier name) region =
        some (stR, Output.empty.insertBound ⟨st.env.home, st.env.identIds.length⟩,
          ⟨region, .shadowed origRegion ⟨region, name⟩
            ⟨st.env.home, st.env.identIds.length⟩⟩) ∧
      stR.env.problems = st.env.problems ++
        [.runtimeError (.shadowing origRegion ⟨region, name⟩)] ∧
      (Output.empty.insertBound ⟨st.env.home, st.env.identIds.length⟩).boundSymbols =
        [⟨st.env.home, st.env.identIds.length⟩] ∧
      symbols_from_pattern
          (.shadowed origRegion ⟨region, name⟩ ⟨st.env.home, st.env.identIds.length⟩) =
        [⟨st.env.home, st.env.identIds.length⟩] ∧
      (⟨st.env.home, st.env.identIds.length⟩ : Symbol) ≠ origSym := by
  have hne : (⟨st.env.home, st.env.identIds.length⟩ : Symbol) ≠ origSym := by
    unfold Scope.lookup at hlook
    obtain ⟨e, hfind, he2⟩ := Option.map_eq_some'.mp hlook
    have hmem := List.mem_of_find?_eq_some hfind
    have hlt := hwf e hmem
    intro contra
    rw [he2] at hlt
    simp only [] at hlt
    have : st.env.identIds.length = origSym.identId := congrArg Symbol.identId contra
    omega
  refine ⟨⟨⟨st.env.home, st.env.identIds ++ [name],
      st.env.problems ++ [.runtimeError (.shadowing origRegion ⟨region, name⟩)]⟩,
      st.scope, st.nextVar⟩,
    ?_, rfl, rfl, rfl, hne⟩
  unfold canonicalize_pattern Scope.introduce
  rw [hlook]
  rfl

/-- A state with `x` already bound in scope (symbol `⟨0,0⟩`, bound at
region 5) and interned in the ident table. -/
def stSh : CanState := ⟨⟨0, ["x"], []⟩, ⟨[("x", ⟨0, 0⟩, 5)], []⟩, 0⟩

/-- C6 witness: the shadow law at a scope where `x` is already bound. -/
theorem c6_shadow_law_witness :
    ∃ stR : CanState,
      canonicalize_pattern stSh .whenBranch (.identifier "x") 7 =
        some (stR, Output.empty.insertBound ⟨0, 1⟩,
          ⟨7, .shadowed 5 ⟨7, "x"⟩ ⟨0, 1⟩⟩) ∧
      stR.env.problems = [.runtimeError (.shadowing 5 ⟨7, "x"⟩)] ∧
      (Output.empty.insertBound (⟨0, 1⟩ : Symbol)).boundSymbols = [⟨0, 1⟩] ∧
      symbols_from_pattern (.shadowed 5 ⟨7, "x"⟩ ⟨0, 1⟩) = [⟨0, 1⟩] ∧
      (⟨0, 1⟩ : Symbol) ≠ (⟨0, 0⟩ : Symbol) :=
  c6_shadow_law stSh .whenBranch "x" 7 ⟨0, 0⟩ 5 rfl
    (by unfold ScopeWf; simp [stSh])

/-- One-step equation for `canonicalize_fields` at a bare-identifier
field. -/
theorem canonicalize_fields_cons_ident (st : CanState) (ptype : PatternType)
    (region : Region) (fr : Region) (label : String) (rest : List (Loc SPattern)) :
    canonicalize_fields st ptype region (⟨fr, .identifier label⟩ :: rest) =
      (match Scope.introduce st.scope st.env.home st.env.identIds label region with
       | (.ok sym, scope1, ids1) =>
         match canonicalize_fields
             ⟨⟨st.env.home, ids1, st.env.problems⟩, scope1, st.nextVar + 1⟩
             ptype region rest with
         | none => none
         | some (st3, restOut, restDs, restErr) =>
           some (st3, (Output.empty.insertBound sym).union restOut,
             ⟨fr, .mk st.nextVar label sym .required⟩ :: restDs, restErr)
       | (.shadow originalRegion shadowIdent newSymbol, scope1, ids1) =>
         match canonicalize_fields
             ⟨⟨st.env.home, ids1, st.env.problems ++
                 [.runtimeError (.shadowing originalRegion shadowIdent)]⟩,
               scope1, st.nextVar⟩
             ptype region rest with
         | none => none
         | some (st2, restOut, restDs, restErr) =>
           some (st2, restOut, restDs,
             match restErr with
             | some e => some e
             | none => some (.shadowed originalRegion shadowIdent newSymbol))) := by
  cases h : Scope.introduce st.scope st.env.home st.env.identIds label region with
  | mk res pr =>
    obtain ⟨scope1, ids1⟩ := pr
    cases res <;>
      simp only [canonicalize_fields, h, CanState.fresh] <;> rfl

mutual
/-- On canonical patterns without ability-member specializations and
without guarded destructs, the unordered and ordered extractions
produce the same symbol sets. -/
theorem symbols_bindings_agree (p : Pattern) :
    ∀ region : Region, Pattern.plainB p = true →
    ∀ s : Symbol, s ∈ symbols_from_pattern_help p ↔
      s ∈ (add_bindings_from_patterns region p).map Prod.fst :=
  match p with
  | .identifier sym => by
    intro region _ s
    simp [symbols_from_pattern_help, add_bindings_from_patterns]
  | .shadowed o sh sym => by
    intro region _ s
    simp [symbols_from_pattern_help, add_bindings_from_patterns]
  | .abilityMemberSpecialization i sp => by
    intro region hp s
    simp [Pattern.plainB] at hp
  | .appliedTag w e t arguments => by
    intro region hp s
    simp only [Pattern.plainB] at hp
    simp only [symbols_from_pattern_help, add_bindings_from_patterns]
    exact symbols_bindings_agree_args arguments hp s
  | .unwrappedOpq w opq (v, ⟨argRegion, nested⟩) sdt ta lsv => by
    intro region hp s
    simp only [Pattern.plainB] at hp
    simp only [symbols_from_pattern_help, add_bindings_from_patterns]
    have ih := symbols_bindings_agree nested argRegion hp s
    simp only [List.mem_cons, List.map_append, List.mem_append, ih]
    simp [Or.comm]
  | .recordDestructure w e destructs => by
    intro region hp s
    simp only [Pattern.plainB] at hp
    simp only [symbols_from_pattern_help, add_bindings_from_patterns]
    exact symbols_bindings_agree_destructs destructs hp s
  | .numLiteral _ _ _ _ => by
    intro region _ s
    simp [symbols_from_pattern_help, add_bindings_from_patterns]
  | .intLiteral _ _ _ _ _ => by
    intro region _ s
    simp [symbols_from_pattern_help, add_bindings_from_patterns]
  | .floatLiteral _ _ _ _ _ => by
    intro region _ s
    simp [symbols_from_pattern_help, add_bindings_from_patterns]
  | .strLiteral _ => by
    intro region _ s
    simp [symbols_from_pattern_help, add_bindings_from_patterns]
  | .singleQuote _ => by
    intro region _ s
    simp [symbols_from_pattern_help, add_bindings_from_patterns]
  | .underscore => by
    intro region _ s
    simp [symbols_from_pattern_help, add_bindings_from_patterns]
  | .malformedPattern _ _ => by
    intro region _ s
    simp [symbols_from_pattern_help, add_bindings_from_patterns]
  | .unsupportedPattern _ => by
    intro region _ s
    simp [symbols_from_pattern_help, add_bindings_from_patterns]
  | .opqNotInScope _ => by
    intro region _ s
    simp [symbols_from_pattern_help, add_bindings_from_patterns]

/-- Extraction agreement over a tag's argument list. -/
theorem symbols_bindings_agree_args (arguments : List (Nat × Loc Pattern)) :
    Pattern.plainArgsB arguments = true →
    ∀ s : Symbol, s ∈ symbols_from_tag_args arguments ↔
      s ∈ (bindings_from_tag_args arguments).map Prod.fst :=
  match arguments with
  | [] => by
    intro _ s
    simp [symbols_from_tag_args, bindings_from_tag_args]
  | (v, ⟨argRegion, nested⟩) :: rest => by
    intro hp s
    simp only [Pattern.plainArgsB, Bool.and_eq_true] at hp
    simp only [symbols_from_tag_args, bindings_from_tag_args, List.map_append,
      List.mem_append]
    rw [symbols_bindings_agree nested argRegion hp.1 s,
      symbols_bindings_agree_args rest hp.2 s]

/-- Extraction agreement over a destruct list without guards. -/
theorem symbols_bindings_agree_destructs (destructs : List (Loc RecordDestruct)) :
    Pattern.plainDestructsB destructs = true →
    ∀ s : Symbol, s ∈ symbols_from_destructs destructs ↔
      s ∈ (bindings_from_destructs destructs).map Prod.fst :=
  match destructs with
  | [] => by
    intro _ s
    simp [symbols_from_destructs, bindings_from_destructs]
  | ⟨dregion, .mk v label symbol .required⟩ :: rest => by
    intro hp s
    simp only [Pattern.plainDestructsB] at hp
    simp only [symbols_from_destructs, bindings_from_destructs, List.map_cons,
      List.mem_cons]
    rw [symbols_bindings_agree_destructs rest hp s]
  | ⟨dregion, .mk v label symbol (.optional ov d)⟩ :: rest => by
    intro hp s
    simp only [Pattern.plainDestructsB] at hp
    simp only [symbols_from_destructs, bindings_from_destructs, List.map_cons,
      List.mem_cons]
    rw [symbols_bindings_agree_destructs rest hp s]
  | ⟨dregion, .mk v label symbol (.guard gv gp)⟩ :: rest => by
    intro hp s
    simp [Pattern.plainDestructsB] at hp
end

/-- C2 (counterexample): on `AbilityMemberSpecialization` the two
extractions disagree — the unordered walk contributes both the
specializing identifier and the ability symbol, while the ordered walk
contributes only the specializing identifier. -/
theorem c2_counterexample :
    (⟨0, 1⟩ : Symbol) ∈
      symbols_from_pattern (.abilityMemberSpecialization ⟨0, 0⟩ ⟨0, 1⟩) ∧
    (⟨0, 1⟩ : Symbol) ∉
      (bindings_from_patterns [⟨9, .abilityMemberSpecialization ⟨0, 0⟩ ⟨0, 1⟩⟩]).map
        Prod.fst := by
  constructor
  · show (⟨0, 1⟩ : Symbol) ∈ [⟨0, 0⟩, ⟨0, 1⟩]
    simp
  · show (⟨0, 1⟩ : Symbol) ∉ ([(⟨0, 0⟩, 9)] : List (Symbol × Region)).map Prod.fst
    simp

/-- C2 (amended): on canonical patterns containing no
`AbilityMemberSpecialization` node and no `Guard` destruct, the ordered
extraction (`bindings_from_patterns`) and the unordered extraction
(`symbols_from_pattern`) produce the same set of symbols; on the
excluded nodes they differ (the ordered walk omits the specialized
ability symbol and takes a guarded field's own symbol instead of the
guard's contents). -/
theorem c2_extractions_agree (p : Pattern) (region : Region)
    (hp : Pattern.plainB p = true) :
    ∀ s : Symbol, s ∈ symbols_from_pattern p ↔
      s ∈ (bindings_from_patterns [⟨region, p⟩]).map Prod.fst := by
  intro s
  have h := symbols_bindings_agree p region hp s
  simpa [symbols_from_pattern, bindings_from_patterns] using h

/-- C2 witness: agreement at a tag application with one identifier
argument and a record destructure with a required and an optional
field. -/
theorem c2_extractions_agree_witness :
    Pattern.plainB (.appliedTag 0 1 (.global "Foo")
      [(2, ⟨3, .identifier ⟨0, 0⟩⟩),
       (4, ⟨5, .recordDestructure 6 7
         [⟨8, .mk 9 "x" ⟨0, 1⟩ .required⟩,
          ⟨10, .mk 11 "y" ⟨0, 2⟩ (.optional 12 ⟨13, .defaultExpr 0⟩)⟩]⟩)]) = true ∧
    ∀ s : Symbol, s ∈ symbols_from_pattern (.appliedTag 0 1 (.global "Foo")
      [(2, ⟨3, .identifier ⟨0, 0⟩⟩),
       (4, ⟨5, .recordDestructure 6 7
         [⟨8, .mk 9 "x" ⟨0, 1⟩ .required⟩,
          ⟨10, .mk 11 "y" ⟨0, 2⟩ (.optional 12 ⟨13, .defaultExpr 0⟩)⟩]⟩)]) ↔
      s ∈ (bindings_from_patterns [⟨14, .appliedTag 0 1 (.global "Foo")
        [(2, ⟨3, .identifier ⟨0, 0⟩⟩),
         (4, ⟨5, .recordDestructure 6 7
           [⟨8, .mk 9 "x" ⟨0, 1⟩ .required⟩,
            ⟨10, .mk 11 "y" ⟨0, 2⟩ (.optional 12 ⟨13, .defaultExpr 0⟩)⟩]⟩)]⟩]).map
        Prod.fst :=
  ⟨rfl, c2_extractions_agree _ 14 rfl⟩

/-- Flattening one line of string segments succeeds when no
unicode-escape segment occurs. -/
theorem flattenSegments_total (segments : List StrSegment) :
    ∀ buf : String, segments.all segNoUnicode = true →
    (flattenSegments buf segments).isSome = true := by
  induction segments with
  | nil => intro buf _; rfl
  | cons seg rest ih =>
    intro buf hall
    simp only [List.all_cons, Bool.and_eq_true] at hall
    cases seg with
    | plaintext s => exact ih (buf ++ s) hall.2
    | unicode d => simp [segNoUnicode] at hall
    | interpolated r => rfl
    | escapedChar c => exact ih (buf.push (unescapeChar c)) hall.2

/-- Flattening the lines of a string literal succeeds when no
unicode-escape segment occurs. -/
theorem flattenLines_total (lines : List (List StrSegment)) :
    ∀ buf : String, lines.all (·.all segNoUnicode) = true →
    (flattenLines buf lines).isSome = true := by
  induction lines with
  | nil => intro buf _; rfl
  | cons line rest ih =>
    intro buf hall
    simp only [List.all_cons, Bool.and_eq_true] at hall
    have hseg := flattenSegments_total line buf hall.1
    unfold flattenLines
    cases hs : flattenSegments buf line with
    | none => rw [hs] at hseg; simp at hseg
    | some acc =>
      cases acc with
      | text buf1 => exact ih buf1 hall.2
      | interp r => rfl

/-- `flatten_str_literal` succeeds on any literal with no
unicode-escape segment. -/
theorem flatten_str_literal_total (lit : StrLiteral)
    (h : strLitNoUnicode lit = true) :
    (flatten_str_literal lit).isSome = true := by
  cases lit with
  | plainLine s => rfl
  | line segments =>
    have := flattenLines_total [segments] "" (by simpa [strLitNoUnicode] using h)
    unfold flatten_str_literal flatten_str_lines
    cases hf : flattenLines "" [segments] with
    | none => rw [hf] at this; simp at this
    | some acc => cases acc <;> simp [hf]
  | block lines =>
    have := flattenLines_total lines "" (by simpa [strLitNoUnicode] using h)
    unfold flatten_str_literal flatten_str_lines
    cases hf : flattenLines "" lines with
    | none => rw [hf] at this; simp at this
    | some acc => cases acc <;> simp [hf]

mutual
/-- Totality of canonicalization on well-formed, panic-free surface
patterns. -/
theorem canonicalize_pattern_total (pat : SPattern) :
    ∀ (st : CanState) (ptype : PatternType) (region : Region),
    SPattern.wfB pat = true → SPattern.noPanicB pat = true →
    (canonicalize_pattern st ptype pat region).isSome = true :=
  match pat with
  | .identifier name => by
    intro st ptype region _ _
    unfold canonicalize_pattern
    split <;> simp
  | .globalTag name => fun st ptype region _ _ => rfl
  | .privateTag name => by
    intro st ptype region _ _
    unfold canonicalize_pattern Env.getOrInsert
    split <;> simp [CanState.fresh]
  | .opqRef name => fun st ptype region _ _ => rfl
  | .apply tag args => by
    intro st ptype region hwf hnp
    obtain ⟨tagRegion, tagVal⟩ := tag
    simp only [SPattern.wfB, Bool.and_eq_true] at hwf
    obtain ⟨⟨htag, hne⟩, hargs⟩ := hwf
    simp only [SPattern.noPanicB] at hnp
    obtain ⟨st1, out1, cps, heq, hlen⟩ :=
      canonicalize_apply_args_total args st ptype hargs hnp
    unfold canonicalize_pattern
    rw [heq]
    have hcpsne : cps ≠ [] := by
      intro e
      rw [e] at hlen
      cases args with
      | nil => simp at hne
      | cons a l => simp at hlen
    dsimp only
    cases tagVal <;> simp at htag
    case globalTag name =>
      dsimp only
      simp [CanState.fresh]
    case privateTag name =>
      dsimp only
      unfold Env.getOrInsert
      split <;> simp [CanState.fresh]
    case opqRef name =>
      dsimp only
      cases hlook : Scope.lookupOpqRef st1.scope name tagRegion with
      | ok pr =>
        obtain ⟨opq, d⟩ := pr
        have hie : cps.isEmpty = false := by
          cases cps with
          | nil => exact absurd rfl hcpsne
          | cons a l => rfl
        simp only [hlook, hie]
        by_cases hgt : 1 < cps.length
        · simp [hgt]
        · simp only [hgt, if_false]
          cases hgl : cps.getLast? with
          | none =>
            exact absurd (List.getLast?_eq_none.mp hgl) hcpsne
          | some argument => simp [hgl, freshenOpqDef, CanState.fresh]
      | error e => simp [hlook]
  | .floatLiteral s => by
    intro st ptype region _ _
    cases ptype <;> unfold canonicalize_pattern <;> try rfl
    cases hres : finish_parsing_float s with
    | none => rfl
    | some r =>
      obtain ⟨a, b, c⟩ := r
      rfl
  | .numLiteral s => by
    intro st ptype region _ _
    cases ptype <;> unfold canonicalize_pattern <;> try rfl
    cases hres : finish_parsing_num s with
    | none => rfl
    | some r => cases r <;> rfl
  | .nonBase10Literal digits base isNegative => by
    intro st ptype region _ hnp
    cases ptype <;> unfold canonicalize_pattern
    case whenBranch =>
      simp only [SPattern.noPanicB] at hnp
      cases hb : finish_parsing_base digits base isNegative with
      | none => simp
      | some pr =>
        obtain ⟨value, bound⟩ := pr
        cases value with
        | i128 n => simp [CanState.fresh]
        | u128 v =>
          rw [hb] at hnp
          simp only [] at hnp
          rw [hnp]
          simp
    all_goals rfl
  | .strLiteral lit => by
    intro st ptype region _ hnp
    cases ptype <;> unfold canonicalize_pattern
    case whenBranch =>
      simp only [SPattern.noPanicB] at hnp
      have := flatten_str_literal_total lit hnp
      cases hf : flatten_str_literal lit with
      | none => rw [hf] at this; simp at this
      | some p => simp
    all_goals rfl
  | .underscore name => by
    intro st ptype region _ _
    cases ptype <;> rfl
  | .singleQuote s => by
    intro st ptype region _ _
    unfold canonicalize_pattern
    split <;> simp
  | .recordDestructure fields => by
    intro st ptype region hwf hnp
    simp only [SPattern.wfB] at hwf
    simp only [SPattern.noPanicB] at hnp
    have := canonicalize_fields_total fields
      { st with nextVar := st.nextVar + 2 } ptype region hwf hnp
    unfold canonicalize_pattern
    simp only [CanState.fresh]
    cases hf : canonicalize_fields { st with nextVar := st.nextVar + 2 }
        ptype region fields with
    | none => rw [hf] at this; simp at this
    | some r =>
      obtain ⟨st3, out, ds, oe⟩ := r
      simp
  | .requiredField label g => by
    intro st ptype region hwf _
    simp [SPattern.wfB] at hwf
  | .optionalField label d => by
    intro st ptype region hwf _
    simp [SPattern.wfB] at hwf
  | .spaceBefore sub => by
    intro st ptype region hwf hnp
    simp only [SPattern.wfB] at hwf
    simp only [SPattern.noPanicB] at hnp
    exact canonicalize_pattern_total sub st ptype region hwf hnp
  | .spaceAfter sub => by
    intro st ptype region hwf hnp
    simp only [SPattern.wfB] at hwf
    simp only [SPattern.noPanicB] at hnp
    exact canonicalize_pattern_total sub st ptype region hwf hnp
  | .malformed s => fun st ptype region _ _ => rfl
  | .malformedIdent s c => fun st ptype region _ _ => rfl
  | .qualifiedIdentifier => fun st ptype region _ _ => rfl

/-- Totality and length preservation of the apply-argument loop. -/
theorem canonicalize_apply_args_total (args : List (Loc SPattern)) :
    ∀ (st : CanState) (ptype : PatternType),
    SPattern.wfArgsB args = true → SPattern.noPanicArgsB args = true →
    ∃ st1 out cps, canonicalize_apply_args st ptype args = some (st1, out, cps) ∧
      cps.length = args.length :=
  match args with
  | [] => fun st ptype _ _ => ⟨st, Output.empty, [], rfl, rfl⟩
  | ⟨argRegion, argPat⟩ :: rest => by
    intro st ptype hwf hnp
    simp only [SPattern.wfArgsB, Bool.and_eq_true] at hwf
    simp only [SPattern.noPanicArgsB, Bool.and_eq_true] at hnp
    have hp := canonicalize_pattern_total argPat st ptype argRegion hwf.1 hnp.1
    unfold canonicalize_apply_args
    cases hc : canonicalize_pattern st ptype argPat argRegion with
    | none => rw [hc] at hp; simp at hp
    | some r =>
      obtain ⟨st1, argOut, canPat⟩ := r
      obtain ⟨st3, restOut, restPats, heq, hlen⟩ :=
        canonicalize_apply_args_total rest { st1 with nextVar := st1.nextVar + 1 }
          ptype hwf.2 hnp.2
      simp only [CanState.fresh]
      rw [heq]
      exact ⟨st3, argOut.union restOut, (st1.nextVar, canPat) :: restPats, rfl,
        by simp [hlen]⟩

/-- Totality of the record-destructure field loop. -/
theorem canonicalize_fields_total (fields : List (Loc SPattern)) :
    ∀ (st : CanState) (ptype : PatternType) (region : Region),
    SPattern.wfFieldsB fields = true → SPattern.noPanicFieldsB fields = true →
    (canonicalize_fields st ptype region fields).isSome = true :=
  match fields with
  | [] => fun st ptype region _ _ => rfl
  | ⟨fr, .identifier label⟩ :: rest => by
    intro st ptype region hwf hnp
    simp only [SPattern.wfFieldsB] at hwf
    simp only [SPattern.noPanicFieldsB] at hnp
    unfold canonicalize_fields
    cases hl : Scope.lookup st.scope label with
    | none =>
      simp only [Scope.introduce, hl, CanState.fresh]
      have := canonicalize_fields_total rest
        ⟨⟨st.env.home, st.env.identIds ++ [label], st.env.problems⟩,
          ⟨(label, ⟨st.env.home, st.env.identIds.length⟩, region) :: st.scope.idents,
            st.scope.opqs⟩, st.nextVar + 1⟩ ptype region hwf hnp
      cases hf : canonicalize_fields
          ⟨⟨st.env.home, st.env.identIds ++ [label], st.env.problems⟩,
            ⟨(label, ⟨st.env.home, st.env.identIds.length⟩, region) :: st.scope.idents,
              st.scope.opqs⟩, st.nextVar + 1⟩ ptype region rest with
      | none => rw [hf] at this; simp at this
      | some r =>
        obtain ⟨st3, restOut, restDs, restErr⟩ := r
        rfl
    | some pr =>
      obtain ⟨origSym, origRegion⟩ := pr
      simp only [Scope.introduce, hl, Env.addProblem]
      have := canonicalize_fields_total rest
        ⟨⟨st.env.home, st.env.identIds ++ [label],
            st.env.problems ++ [.runtimeError (.shadowing origRegion ⟨region, label⟩)]⟩,
          st.scope, st.nextVar⟩ ptype region hwf hnp
      cases hf : canonicalize_fields
          ⟨⟨st.env.home, st.env.identIds ++ [label],
              st.env.problems ++ [.runtimeError (.shadowing origRegion ⟨region, label⟩)]⟩,
            st.scope, st.nextVar⟩ ptype region rest with
      | none => rw [hf] at this; simp at this
      | some r =>
        obtain ⟨st3, restOut, restDs, restErr⟩ := r
        cases restErr <;> rfl
  | ⟨fr, .requiredField label ⟨guardRegion, guardPat⟩⟩ :: rest => by
    intro st ptype region hwf hnp
    simp only [SPattern.wfFieldsB, Bool.and_eq_true] at hwf
    simp only [SPattern.noPanicFieldsB, Bool.and_eq_true] at hnp
    have hg := canonicalize_pattern_total guardPat
      ⟨⟨st.env.home, st.env.identIds ++ [label], st.env.problems⟩,
        st.scope, st.nextVar⟩ ptype guardRegion hwf.1 hnp.1
    unfold canonicalize_fields
    simp only [mintIgnored]
    cases hc : canonicalize_pattern
        ⟨⟨st.env.home, st.env.identIds ++ [label], st.env.problems⟩,
          st.scope, st.nextVar⟩ ptype guardPat guardRegion with
    | none => rw [hc] at hg; simp at hg
    | some r =>
      obtain ⟨st2, guardOut, canGuard⟩ := r
      have := canonicalize_fields_total rest
        { st2 with nextVar := st2.nextVar + 2 } ptype region hwf.2 hnp.2
      simp only [CanState.fresh]
      cases hf : canonicalize_fields { st2 with nextVar := st2.nextVar + 2 }
          ptype region rest with
      | none => rw [hf] at this; simp at this
      | some r2 =>
        obtain ⟨st5, restOut, restDs, restErr⟩ := r2
        rfl
  | ⟨fr, .optionalField label locDefault⟩ :: rest => by
    intro st ptype region hwf hnp
    simp only [SPattern.wfFieldsB] at hwf
    simp only [SPattern.noPanicFieldsB] at hnp
    unfold canonicalize_fields
    cases hl : Scope.lookup st.scope label with
    | none =>
      simp only [Scope.introduce, hl, canonicalizeExpr, CanState.fresh]
      have := canonicalize_fields_total rest
        ⟨⟨st.env.home, st.env.identIds ++ [label], st.env.problems⟩,
          ⟨(label, ⟨st.env.home, st.env.identIds.length⟩, region) :: st.scope.idents,
            st.scope.opqs⟩, st.nextVar + 2⟩ ptype region hwf hnp
      cases hf : canonicalize_fields
          ⟨⟨st.env.home, st.env.identIds ++ [label], st.env.problems⟩,
            ⟨(label, ⟨st.env.home, st.env.identIds.length⟩, region) :: st.scope.idents,
              st.scope.opqs⟩, st.nextVar + 2⟩ ptype region rest with
      | none => rw [hf] at this; simp at this
      | some r =>
        obtain ⟨st5, restOut, restDs, restErr⟩ := r
        rfl
    | some pr =>
      obtain ⟨origSym, origRegion⟩ := pr
      simp only [Scope.introduce, hl, Env.addProblem]
      have := canonicalize_fields_total rest
        ⟨⟨st.env.home, st.env.identIds ++ [label],
            st.env.problems ++ [.runtimeError (.shadowing origRegion ⟨region, label⟩)]⟩,
          st.scope, st.nextVar⟩ ptype region hwf hnp
      cases hf : canonicalize_fields
          ⟨⟨st.env.home, st.env.identIds ++ [label],
              st.env.problems ++ [.runtimeError (.shadowing origRegion ⟨region, label⟩)]⟩,
            st.scope, st.nextVar⟩ ptype region rest with
      | none => rw [hf] at this; simp at this
      | some r =>
        obtain ⟨st3, restOut, restDs, restErr⟩ := r
        cases restErr <;> rfl
  | ⟨fr, .globalTag n⟩ :: rest => by
    intro st ptype region hwf _
    simp [SPattern.wfFieldsB] at hwf
  | ⟨fr, .privateTag n⟩ :: rest => by
    intro st ptype region hwf _
    simp [SPattern.wfFieldsB] at hwf
  | ⟨fr, .opqRef n⟩ :: rest => by
    intro st ptype region hwf _
    simp [SPattern.wfFieldsB] at hwf
  | ⟨fr, .apply t a⟩ :: rest => by
    intro st ptype region hwf _
    simp [SPattern.wfFieldsB] at hwf
  | ⟨fr, .floatLiteral s⟩ :: rest => by
    intro st ptype region hwf _
    simp [SPattern.wfFieldsB] at hwf
  | ⟨fr, .numLiteral s⟩ :: rest => by
    intro st ptype region hwf _
    simp [SPattern.wfFieldsB] at hwf
  | ⟨fr, .nonBase10Literal d b n⟩ :: rest => by
    intro st ptype region hwf _
    simp [SPattern.wfFieldsB] at hwf
  | ⟨fr, .strLiteral l⟩ :: rest => by
    intro st ptype region hwf _
    simp [SPattern.wfFieldsB] at hwf
  | ⟨fr, .underscore n⟩ :: rest => by
    intro st ptype region hwf _
    simp [SPattern.wfFieldsB] at hwf
  | ⟨fr, .singleQuote s⟩ :: rest => by
    intro st ptype region hwf _
    simp [SPattern.wfFieldsB] at hwf
  | ⟨fr, .recordDestructure f⟩ :: rest => by
    intro st ptype region hwf _
    simp [SPattern.wfFieldsB] at hwf
  | ⟨fr, .spaceBefore p⟩ :: rest => by
    intro st ptype region hwf _
    simp [SPattern.wfFieldsB] at hwf
  | ⟨fr, .spaceAfter p⟩ :: rest => by
    intro st ptype region hwf _
    simp [SPattern.wfFieldsB] at hwf
  | ⟨fr, .malformed s⟩ :: rest => by
    intro st ptype region hwf _
    simp [SPattern.wfFieldsB] at hwf
  | ⟨fr, .malformedIdent s c⟩ :: rest => by
    intro st ptype region hwf _
    simp [SPattern.wfFieldsB] at hwf
  | ⟨fr, .qualifiedIdentifier⟩ :: rest => by
    intro st ptype region hwf _
    simp [SPattern.wfFieldsB] at hwf
end

/-- C1 (counterexample): a string-literal pattern containing a
unicode-escape segment under `WhenBranch` yields no result — the
flattening hits the explicitly unimplemented unicode case (a `todo!`
panic), so canonicalization is not total on such patterns. -/
theorem c1_counterexample :
    canonicalize_pattern st0 .whenBranch
      (.strLiteral (.line [.unicode ⟨0, "00e9"⟩])) 1 = none := rfl

/-- C1 (amended): for every parser-producible surface pattern (apply
heads are tag/opaque references, applications and opaque applications
are nonempty, record fields are identifier/required/optional forms)
that contains no unicode-escape string segment and no non-decimal
integer literal classified at full unsigned 128-bit width with a
non-negative sign, canonicalization in every context and state returns
exactly one canonical pattern node. -/
theorem c1_totality (st : CanState) (ptype : PatternType) (pat : SPattern)
    (region : Region) (hwf : SPattern.wfB pat = true)
    (hnp : SPattern.noPanicB pat = true) :
    ∃ stR out cp,
      canonicalize_pattern st ptype pat region = some (stR, out, cp) := by
  have h := canonicalize_pattern_total pat st ptype region hwf hnp
  cases hc : canonicalize_pattern st ptype pat region with
  | none => rw [hc] at h; simp at h
  | some r => exact ⟨r.1, r.2.1, r.2.2, rfl⟩

/-- C1 witness: totality at a record destructure holding a bare
identifier field and a guarded field whose guard applies a tag to a
string literal. -/
theorem c1_totality_witness :
    SPattern.wfB (.recordDestructure [⟨1, .identifier "x"⟩,
      ⟨2, .requiredField "y"
        ⟨3, .apply ⟨4, .globalTag "T"⟩
          [⟨5, .strLiteral (.line [.plaintext "hi", .escapedChar .tab])⟩]⟩⟩]) = true ∧
    SPattern.noPanicB (.recordDestructure [⟨1, .identifier "x"⟩,
      ⟨2, .requiredField "y"
        ⟨3, .apply ⟨4, .globalTag "T"⟩
          [⟨5, .strLiteral (.line [.plaintext "hi", .escapedChar .tab])⟩]⟩⟩]) = true ∧
    ∃ stR out cp,
      canonicalize_pattern st0 .whenBranch
        (.recordDestructure [⟨1, .identifier "x"⟩,
          ⟨2, .requiredField "y"
            ⟨3, .apply ⟨4, .globalTag "T"⟩
              [⟨5, .strLiteral (.line [.plaintext "hi", .escapedChar .tab])⟩]⟩⟩]) 9 =
        some (stR, out, cp) :=
  ⟨rfl, rfl, c1_totality st0 .whenBranch _ 9 rfl rfl⟩

/-- Freshly minted symbols stay minted when the ident table grows
further to the right. -/
theorem mintedIn_mono_right (env0 envA env1 : Env) (names : List String)
    (s : Symbol) (h : MintedIn env0 envA names s)
    (hext : ∃ t, env1.identIds = envA.identIds ++ t) :
    MintedIn env0 env1 names s := by
  obtain ⟨hm, hlo, hhi, n, hget, hn⟩ := h
  obtain ⟨t, ht⟩ := hext
  refine ⟨hm, hlo, ?_, n, ?_, hn⟩
  · rw [ht]
    simp only [List.length_append]
    omega
  · rw [ht, List.getElem?_append_left hhi]
    exact hget

/-- A symbol minted during a later step was minted during the whole
step. -/
theorem mintedIn_mono_left (env0 envA env1 : Env) (names : List String)
    (s : Symbol) (h : MintedIn envA env1 names s)
    (hext : ∃ t, envA.identIds = env0.identIds ++ t)
    (hh : envA.home = env0.home) :
    MintedIn env0 env1 names s := by
  obtain ⟨hm, hlo, hhi, n, hget, hn⟩ := h
  obtain ⟨t, ht⟩ := hext
  refine ⟨by rw [hm, hh], ?_, hhi, n, hget, hn⟩
  rw [ht] at hlo
  simp only [List.length_append] at hlo
  omega

/-- Minted symbols keep their status under a larger binder-name set. -/
theorem mintedIn_names_mono (env0 env1 : Env) (names names1 : List String)
    (s : Symbol) (h : MintedIn env0 env1 names s)
    (hsub : ∀ n ∈ names, n ∈ names1) :
    MintedIn env0 env1 names1 s := by
  obtain ⟨hm, hlo, hhi, n, hget, hn⟩ := h
  exact ⟨hm, hlo, hhi, n, hget, hsub n hn⟩

/-- Upgrade an opaque-or-minted fact across an earlier step. -/
theorem opqOrMinted_up_left (scope scopeA : Scope) (env0 envA env1 : Env)
    (names names1 : List String) (s : Symbol)
    (h : OpqOrMinted scopeA envA env1 names s)
    (hsc : scopeA.opqs = scope.opqs)
    (hext : ∃ t, envA.identIds = env0.identIds ++ t)
    (hh : envA.home = env0.home)
    (hsub : ∀ n ∈ names, n ∈ names1) :
    OpqOrMinted scope env0 env1 names1 s := by
  cases h with
  | inl ho =>
    left
    rw [← hsc]
    exact ho
  | inr hm =>
    right
    exact mintedIn_names_mono _ _ _ _ _ (mintedIn_mono_left _ _ _ _ _ hm hext hh) hsub

/-- Upgrade an opaque-or-minted fact across a later step. -/
theorem opqOrMinted_up_right (scope : Scope) (env0 envA env1 : Env)
    (names names1 : List String) (s : Symbol)
    (h : OpqOrMinted scope env0 envA names s)
    (hext : ∃ t, env1.identIds = envA.identIds ++ t)
    (hsub : ∀ n ∈ names, n ∈ names1) :
    OpqOrMinted scope env0 env1 names1 s := by
  cases h with
  | inl ho => exact Or.inl ho
  | inr hm =>
    right
    exact mintedIn_names_mono _ _ _ _ _ (mintedIn_mono_right _ _ _ _ _ hm hext) hsub

/-- The extraction of the last canonicalized argument is contained in
the extraction over the whole argument list. -/
theorem symbols_getLast_subset (cps : List (Nat × Loc Pattern)) :
    ∀ (v : Nat) (lp : Loc Pattern), cps.getLast? = some (v, lp) →
    ∀ s ∈ symbols_from_pattern_help lp.value, s ∈ symbols_from_tag_args cps := by
  induction cps with
  | nil => intro v lp h; simp at h
  | cons a rest ih =>
    intro v lp h s hs
    obtain ⟨va, ra, pa⟩ := a
    cases rest with
    | nil =>
      simp at h
      obtain ⟨h1, h2⟩ := h
      subst h1
      subst h2
      simpa [symbols_from_tag_args] using hs
    | cons b rest2 =>
      rw [List.getLast?_cons_cons] at h
      have hmem := ih v lp h s hs
      have hgoal : symbols_from_tag_args ((va, ⟨ra, pa⟩) :: b :: rest2) =
          symbols_from_pattern_help pa ++ symbols_from_tag_args (b :: rest2) := rfl
      rw [hgoal]
      exact List.mem_append_right _ hmem

/-- Ident-table extensions compose. -/
theorem ext_trans {α : Type} {a b c : List α} (h1 : ∃ t, b = a ++ t)
    (h2 : ∃ t, c = b ++ t) : ∃ t, c = a ++ t := by
  obtain ⟨t1, rfl⟩ := h1
  obtain ⟨t2, rfl⟩ := h2
  exact ⟨t1 ++ t2, by simp⟩

/-- The symbol minted by appending one name to the ident table is
minted-in for any name set containing that name. -/
theorem mintedIn_single (home : Nat) (ids : List String)
    (probs probs1 : List Problem) (name : String) (names : List String)
    (hn : name ∈ names) :
    MintedIn ⟨home, ids, probs⟩ ⟨home, ids ++ [name], probs1⟩ names
      ⟨home, ids.length⟩ := by
  refine ⟨rfl, le_refl _, by simp, name, ?_, hn⟩
  exact List.getElem?_concat_length ids name

/-- `getOrInsert` only appends to the ident table and preserves the
home module and the diagnostics sink. -/
theorem getOrInsert_ext (env : Env) (name : String) :
    (∃ t, (env.getOrInsert name).2.identIds = env.identIds ++ t) ∧
    (env.getOrInsert name).2.home = env.home ∧
    (env.getOrInsert name).2.problems = env.problems := by
  unfold Env.getOrInsert
  cases h : env.identIds.findIdx? (fun x => decide (x = name)) with
  | none => exact ⟨⟨[name], rfl⟩, rfl, rfl⟩
  | some i => exact ⟨⟨[], by simp⟩, rfl, rfl⟩

/-- The five-part invariant conclusion for the canonicalization steps
that mint nothing, bind nothing, and extract nothing. -/
theorem inert_conj (st st1 : CanState) (out : Output) (names : List String)
    (cp : Loc Pattern)
    (h1 : st1.env.identIds = st.env.identIds)
    (h2 : st1.env.home = st.env.home)
    (h3 : st1.scope.opqs = st.scope.opqs)
    (h4 : out.boundSymbols = [])
    (h5 : symbols_from_pattern_help cp.value = []) :
    (∃ t, st1.env.identIds = st.env.identIds ++ t) ∧
    st1.env.home = st.env.home ∧
    st1.scope.opqs = st.scope.opqs ∧
    (∀ s ∈ out.boundSymbols, MintedIn st.env st1.env names s) ∧
    (∀ s ∈ symbols_from_pattern_help cp.value,
      OpqOrMinted st.scope st.env st1.env names s) := by
  refine ⟨⟨[], by simp [h1]⟩, h2, h3, ?_, ?_⟩ <;> intro s hs
  · rw [h4] at hs
    cases hs
  · rw [h5] at hs
    cases hs

/-- A flattened string literal extracts no symbols. -/
theorem flatten_extraction (lit : StrLiteral) (p : Pattern)
    (h : flatten_str_literal lit = some p) :
    symbols_from_pattern_help p = [] := by
  cases lit with
  | plainLine s =>
    unfold flatten_str_literal at h
    simp only [Option.some.injEq] at h
    rw [← h]
    rfl
  | line segments =>
    unfold flatten_str_literal flatten_str_lines at h
    dsimp only at h
    cases hf : flattenLines "" [segments] with
    | none => rw [hf] at h; cases h
    | some acc =>
      rw [hf] at h
      cases acc <;> simp only [Option.some.injEq] at h <;> rw [← h] <;> rfl
  | block lines =>
    unfold flatten_str_literal flatten_str_lines at h
    dsimp only at h
    cases hf : flattenLines "" lines with
    | none => rw [hf] at h; cases h
    | some acc =>
      rw [hf] at h
      cases acc <;> simp only [Option.some.injEq] at h <;> rw [← h] <;> rfl

/-- One-step equation for `canonicalize_fields` at a guarded required
field. -/
theorem canonicalize_fields_cons_req (st : CanState) (ptype : PatternType)
    (region fr : Region) (label : String) (gr : Region) (gp : SPattern)
    (rest : List (Loc SPattern)) :
    canonicalize_fields st ptype region
        (⟨fr, .requiredField label ⟨gr, gp⟩⟩ :: rest) =
      (match canonicalize_pattern
          ⟨⟨st.env.home, st.env.identIds ++ [label], st.env.problems⟩,
            st.scope, st.nextVar⟩ ptype gp gr with
       | none => none
       | some (st2, guardOut, canGuard) =>
         match canonicalize_fields { st2 with nextVar := st2.nextVar + 2 }
             ptype region rest with
         | none => none
         | some (st5, restOut, restDs, restErr) =>
           some (st5, guardOut.union restOut,
             ⟨fr, .mk st2.nextVar label ⟨st.env.home, st.env.identIds.length⟩
               (.guard (st2.nextVar + 1) canGuard)⟩ :: restDs, restErr)) := by
  simp only [canonicalize_fields, mintIgnored]
  cases hg : canonicalize_pattern
      ⟨⟨st.env.home, st.env.identIds ++ [label], st.env.problems⟩,
        st.scope, st.nextVar⟩ ptype gp gr with
  | none => rfl
  | some r =>
    obtain ⟨st2, guardOut, canGuard⟩ := r
    simp only [CanState.fresh]

/-- One-step equation for `canonicalize_fields` at an optional
field. -/
theorem canonicalize_fields_cons_opt (st : CanState) (ptype : PatternType)
    (region fr : Region) (label : String) (locD : Loc Nat)
    (rest : List (Loc SPattern)) :
    canonicalize_fields st ptype region (⟨fr, .optionalField label locD⟩ :: rest) =
      (match Scope.introduce st.scope st.env.home st.env.identIds label region with
       | (.ok sym, scope1, ids1) =>
         match canonicalize_fields ⟨⟨st.env.home, ids1, st.env.problems⟩,
             scope1, st.nextVar + 2⟩ ptype region rest with
         | none => none
         | some (st5, restOut, restDs, restErr) =>
           some (st5, ((Output.empty.insertBound sym).union Output.empty).union restOut,
             ⟨fr, .mk st.nextVar label sym
               (.optional (st.nextVar + 1) ⟨locD.region, .defaultExpr locD.value⟩)⟩ ::
               restDs, restErr)
       | (.shadow o sh n, scope1, ids1) =>
         match canonicalize_fields
             ⟨⟨st.env.home, ids1,
                 st.env.problems ++ [.runtimeError (.shadowing o sh)]⟩,
               scope1, st.nextVar⟩ ptype region rest with
         | none => none
         | some (st2, restOut, restDs, restErr) =>
           some (st2, restOut, restDs,
             match restErr with
             | some e => some e
             | none => some (.shadowed o sh n))) := by
  cases h : Scope.introduce st.scope st.env.home st.env.identIds label region with
  | mk res pr =>
    obtain ⟨scope1, ids1⟩ := pr
    cases res <;>
      simp only [canonicalize_fields, h, canonicalizeExpr, CanState.fresh,
        Env.addProblem]

mutual
/-- The canonicalization invariant: a successful call only appends to
the ident table, keeps the home module and opaque table, mints every
bound symbol under one of the pattern's binder names, and every symbol
the unordered extraction finds in the result is either an opaque symbol
of the scope or such a freshly minted one. -/
theorem can_inv (pat : SPattern) :
    ∀ (st : CanState) (ptype : PatternType) (region : Region)
      (st1 : CanState) (out : Output) (cp : Loc Pattern),
    canonicalize_pattern st ptype pat region = some (st1, out, cp) →
    (∃ t, st1.env.identIds = st.env.identIds ++ t) ∧
    st1.env.home = st.env.home ∧
    st1.scope.opqs = st.scope.opqs ∧
    (∀ s ∈ out.boundSymbols, MintedIn st.env st1.env (SPattern.bindNames pat) s) ∧
    (∀ s ∈ symbols_from_pattern_help cp.value,
      OpqOrMinted st.scope st.env st1.env (SPattern.bindNames pat) s) :=
  match pat with
  | .identifier name => by
    intro st ptype region st1 out cp h
    unfold canonicalize_pattern at h
    cases hl : Scope.lookup st.scope name with
    | none =>
      simp only [Scope.introduce, hl, Env.addProblem] at h
      simp only [Option.some.injEq, Prod.mk.injEq] at h
      obtain ⟨rfl, rfl, rfl⟩ := h
      refine ⟨⟨[name], rfl⟩, rfl, rfl, ?_, ?_⟩ <;> intro s hs
      · simp only [Output.insertBound, Output.empty, List.nil_append,
          List.mem_singleton] at hs
        subst hs
        exact mintedIn_single st.env.home st.env.identIds st.env.problems
          st.env.problems name _ (by simp [SPattern.bindNames])
      · simp only [symbols_from_pattern_help, List.mem_singleton] at hs
        subst hs
        exact Or.inr (mintedIn_single st.env.home st.env.identIds st.env.problems
          st.env.problems name _ (by simp [SPattern.bindNames]))
    | some pr =>
      obtain ⟨origSym, origRegion⟩ := pr
      simp only [Scope.introduce, hl, Env.addProblem] at h
      simp only [Option.some.injEq, Prod.mk.injEq] at h
      obtain ⟨rfl, rfl, rfl⟩ := h
      refine ⟨⟨[name], rfl⟩, rfl, rfl, ?_, ?_⟩ <;> intro s hs
      · simp only [Output.insertBound, Output.empty, List.nil_append,
          List.mem_singleton] at hs
        subst hs
        exact mintedIn_single st.env.home st.env.identIds st.env.problems _
          name _ (by simp [SPattern.bindNames])
      · simp only [symbols_from_pattern_help, List.mem_singleton] at hs
        subst hs
        exact Or.inr (mintedIn_single st.env.home st.env.identIds st.env.problems _
          name _ (by simp [SPattern.bindNames]))
  | .globalTag name => by
    intro st ptype region st1 out cp h
    unfold canonicalize_pattern at h
    dsimp only [CanState.fresh] at h
    simp only [Option.some.injEq, Prod.mk.injEq] at h
    obtain ⟨rfl, rfl, rfl⟩ := h
    exact inert_conj _ _ _ _ _ rfl rfl rfl rfl rfl
  | .privateTag name => by
    intro st ptype region st1 out cp h
    unfold canonicalize_pattern at h
    dsimp only [CanState.fresh] at h
    simp only [Option.some.injEq, Prod.mk.injEq] at h
    obtain ⟨rfl, rfl, rfl⟩ := h
    obtain ⟨hext, hhome, _⟩ := getOrInsert_ext st.env name
    refine ⟨hext, hhome, rfl, ?_, ?_⟩ <;> intro s hs
    · simp [Output.empty] at hs
    · simp [symbols_from_pattern_help, symbols_from_tag_args] at hs
  | .opqRef name => by
    intro st ptype region st1 out cp h
    unfold canonicalize_pattern Env.addProblem at h
    simp only [Option.some.injEq, Prod.mk.injEq] at h
    obtain ⟨rfl, rfl, rfl⟩ := h
    exact inert_conj _ _ _ _ _ rfl rfl rfl rfl rfl
  | .apply tag args => by
    intro st ptype region st1 out cp h
    obtain ⟨tagRegion, tagVal⟩ := tag
    unfold canonicalize_pattern at h
    cases ha : canonicalize_apply_args st ptype args with
    | none => rw [ha] at h; exact Option.noConfusion h
    | some r =>
      obtain ⟨stA, argsOut, cps⟩ := r
      rw [ha] at h
      dsimp only at h
      obtain ⟨haext, hahome, haopqs, habound, haextr⟩ :=
        can_args_inv args st ptype stA argsOut cps ha
      cases tagVal <;> try exact Option.noConfusion h
      case globalTag name =>
        dsimp only [CanState.fresh] at h
        simp only [Option.some.injEq, Prod.mk.injEq] at h
        obtain ⟨rfl, rfl, rfl⟩ := h
        exact ⟨haext, hahome, haopqs, habound, haextr⟩
      case privateTag name =>
        dsimp only [CanState.fresh] at h
        simp only [Option.some.injEq, Prod.mk.injEq] at h
        obtain ⟨rfl, rfl, rfl⟩ := h
        obtain ⟨hext2, hhome2, _⟩ := getOrInsert_ext stA.env name
        refine ⟨ext_trans haext hext2, hhome2.trans hahome, haopqs, ?_, ?_⟩ <;>
          intro s hs
        · exact mintedIn_mono_right _ _ _ _ _ (habound s hs) hext2
        · exact opqOrMinted_up_right _ _ _ _ _ _ _ (haextr s hs) hext2
            (fun n hn => hn)
      case opqRef name =>
        dsimp only at h
        cases hlook : Scope.lookupOpqRef stA.scope name tagRegion with
        | ok pr =>
          obtain ⟨opq, opqDef⟩ := pr
          rw [hlook] at h
          dsimp only at h
          by_cases hie : cps.isEmpty
          · rw [if_pos hie] at h
            exact Option.noConfusion h
          · rw [if_neg hie] at h
            by_cases hgt : 1 < cps.length
            · rw [if_pos hgt] at h
              unfold Env.addProblem at h
              simp only [Option.some.injEq, Prod.mk.injEq] at h
              obtain ⟨rfl, rfl, rfl⟩ := h
              refine ⟨haext, hahome, haopqs, habound, ?_⟩
              intro s hs
              simp [symbols_from_pattern_help] at hs
            · rw [if_neg hgt] at h
              cases hgl : cps.getLast? with
              | none => rw [hgl] at h; exact Option.noConfusion h
              | some argument =>
                obtain ⟨av, ar, ap⟩ := argument
                rw [hgl] at h
                dsimp only [freshenOpqDef, CanState.fresh] at h
                simp only [Option.some.injEq, Prod.mk.injEq] at h
                obtain ⟨rfl, rfl, rfl⟩ := h
                refine ⟨haext, hahome, haopqs, ?_, ?_⟩ <;> intro s hs
                · exact habound s (by
                    simpa [Output.insertRefTypeDef, Output.insertTypeLookup]
                      using hs)
                · simp only [symbols_from_pattern_help, List.mem_cons] at hs
                  cases hs with
                  | inl hsq =>
                    subst hsq
                    left
                    unfold Scope.lookupOpqRef at hlook
                    cases hfind : stA.scope.opqs.find? (fun e => e.1 = name) with
                    | none =>
                      rw [hfind] at hlook
                      exact Except.noConfusion hlook
                    | some e =>
                      obtain ⟨nm, sym, dd⟩ := e
                      rw [hfind] at hlook
                      simp only [Except.ok.injEq, Prod.mk.injEq] at hlook
                      obtain ⟨rfl, rfl⟩ := hlook
                      rw [← haopqs]
                      exact ⟨(nm, sym, dd), List.mem_of_find?_eq_some hfind, rfl⟩
                  | inr hsr =>
                    have := symbols_getLast_subset cps av ⟨ar, ap⟩ hgl s hsr
                    exact haextr s this
        | error e =>
          rw [hlook] at h
          unfold Env.addProblem at h
          simp only [Option.some.injEq, Prod.mk.injEq] at h
          obtain ⟨rfl, rfl, rfl⟩ := h
          refine ⟨haext, hahome, haopqs, habound, ?_⟩
          intro s hs
          simp [symbols_from_pattern_help] at hs
  | .floatLiteral s0 => by
    intro st ptype region st1 out cp h
    unfold canonicalize_pattern unsupported_pattern malformed_pattern
      Env.addProblem at h
    split at h
    all_goals try split at h
    all_goals
      first
      | exact Option.noConfusion h
      | (try dsimp only [CanState.fresh] at h
         simp only [Option.some.injEq, Prod.mk.injEq] at h
         obtain ⟨rfl, rfl, rfl⟩ := h
         exact inert_conj _ _ _ _ _ rfl rfl rfl rfl rfl)
  | .numLiteral s0 => by
    intro st ptype region st1 out cp h
    unfold canonicalize_pattern unsupported_pattern malformed_pattern
      Env.addProblem at h
    split at h
    all_goals try split at h
    all_goals
      first
      | exact Option.noConfusion h
      | (try dsimp only [CanState.fresh] at h
         simp only [Option.some.injEq, Prod.mk.injEq] at h
         obtain ⟨rfl, rfl, rfl⟩ := h
         exact inert_conj _ _ _ _ _ rfl rfl rfl rfl rfl)
  | .nonBase10Literal digits base isNegative => by
    intro st ptype region st1 out cp h
    unfold canonicalize_pattern unsupported_pattern malformed_pattern
      Env.addProblem at h
    split at h
    all_goals try split at h
    all_goals try split at h
    all_goals
      first
      | exact Option.noConfusion h
      | (try dsimp only [CanState.fresh] at h
         simp only [Option.some.injEq, Prod.mk.injEq] at h
         obtain ⟨rfl, rfl, rfl⟩ := h
         exact inert_conj _ _ _ _ _ rfl rfl rfl rfl rfl)
  | .strLiteral lit => by
    intro st ptype region st1 out cp h
    unfold canonicalize_pattern unsupported_pattern Env.addProblem at h
    split at h
    · cases hf : flatten_str_literal lit with
      | none => rw [hf] at h; exact Option.noConfusion h
      | some p =>
        rw [hf] at h
        simp only [Option.some.injEq, Prod.mk.injEq] at h
        obtain ⟨rfl, rfl, rfl⟩ := h
        exact inert_conj _ _ _ _ _ rfl rfl rfl rfl (flatten_extraction lit p hf)
    all_goals
      (simp only [Option.some.injEq, Prod.mk.injEq] at h
       obtain ⟨rfl, rfl, rfl⟩ := h
       exact inert_conj _ _ _ _ _ rfl rfl rfl rfl rfl)
  | .underscore name => by
    intro st ptype region st1 out cp h
    unfold canonicalize_pattern bad_underscore Env.addProblem at h
    split at h
    all_goals
      (simp only [Option.some.injEq, Prod.mk.injEq] at h
       obtain ⟨rfl, rfl, rfl⟩ := h
       exact inert_conj _ _ _ _ _ rfl rfl rfl rfl rfl)
  | .singleQuote s0 => by
    intro st ptype region st1 out cp h
    unfold canonicalize_pattern malformed_pattern Env.addProblem at h
    split at h
    all_goals
      (simp only [Option.some.injEq, Prod.mk.injEq] at h
       obtain ⟨rfl, rfl, rfl⟩ := h
       exact inert_conj _ _ _ _ _ rfl rfl rfl rfl rfl)
  | .spaceBefore sub => by
    intro st ptype region st1 out cp h
    exact can_inv sub st ptype region st1 out cp h
  | .spaceAfter sub => by
    intro st ptype region st1 out cp h
    exact can_inv sub st ptype region st1 out cp h
  | .recordDestructure fields => by
    intro st ptype region st1 out cp h
    unfold canonicalize_pattern at h
    dsimp only [CanState.fresh] at h
    cases hf : canonicalize_fields { st with nextVar := st.nextVar + 2 }
        ptype region fields with
    | none => rw [hf] at h; exact Option.noConfusion h
    | some r =>
      obtain ⟨stF, outF, ds, optErr⟩ := r
      rw [hf] at h
      dsimp only at h
      simp only [Option.some.injEq, Prod.mk.injEq] at h
      obtain ⟨rfl, rfl, rfl⟩ := h
      obtain ⟨hext, hhome, hopqs, hbound, hextr, herr⟩ :=
        can_fields_inv fields { st with nextVar := st.nextVar + 2 }
          ptype region stF outF ds optErr hf
      refine ⟨hext, hhome, hopqs, hbound, ?_⟩
      intro s hs
      cases optErr with
      | none =>
        simp only [Option.getD, symbols_from_pattern_help] at hs
        exact hextr s hs
      | some ep =>
        simp only [Option.getD] at hs
        exact herr ep rfl s hs
  | .requiredField label g => by
    intro st ptype region st1 out cp h
    exact Option.noConfusion h
  | .optionalField label d => by
    intro st ptype region st1 out cp h
    exact Option.noConfusion h
  | .malformed s0 => by
    intro st ptype region st1 out cp h
    unfold canonicalize_pattern malformed_pattern Env.addProblem at h
    simp only [Option.some.injEq, Prod.mk.injEq] at h
    obtain ⟨rfl, rfl, rfl⟩ := h
    exact inert_conj _ _ _ _ _ rfl rfl rfl rfl rfl
  | .malformedIdent s0 code => by
    intro st ptype region st1 out cp h
    unfold canonicalize_pattern malformed_pattern Env.addProblem at h
    simp only [Option.some.injEq, Prod.mk.injEq] at h
    obtain ⟨rfl, rfl, rfl⟩ := h
    exact inert_conj _ _ _ _ _ rfl rfl rfl rfl rfl
  | .qualifiedIdentifier => by
    intro st ptype region st1 out cp h
    unfold canonicalize_pattern malformed_pattern Env.addProblem at h
    simp only [Option.some.injEq, Prod.mk.injEq] at h
    obtain ⟨rfl, rfl, rfl⟩ := h
    exact inert_conj _ _ _ _ _ rfl rfl rfl rfl rfl

/-- The canonicalization invariant for the apply-argument loop. -/
theorem can_args_inv (args : List (Loc SPattern)) :
    ∀ (st : CanState) (ptype : PatternType)
      (st1 : CanState) (out : Output) (cps : List (Nat × Loc Pattern)),
    canonicalize_apply_args st ptype args = some (st1, out, cps) →
    (∃ t, st1.env.identIds = st.env.identIds ++ t) ∧
    st1.env.home = st.env.home ∧
    st1.scope.opqs = st.scope.opqs ∧
    (∀ s ∈ out.boundSymbols,
      MintedIn st.env st1.env (SPattern.bindNamesArgs args) s) ∧
    (∀ s ∈ symbols_from_tag_args cps,
      OpqOrMinted st.scope st.env st1.env (SPattern.bindNamesArgs args) s) :=
  match args with
  | [] => by
    intro st ptype st1 out cps h
    unfold canonicalize_apply_args at h
    simp only [Option.some.injEq, Prod.mk.injEq] at h
    obtain ⟨rfl, rfl, rfl⟩ := h
    refine ⟨⟨[], by simp⟩, rfl, rfl, ?_, ?_⟩ <;> intro s hs
    · simp [Output.empty] at hs
    · simp [symbols_from_tag_args] at hs
  | ⟨argRegion, argPat⟩ :: rest => by
    intro st ptype st1 out cps h
    unfold canonicalize_apply_args at h
    cases hc : canonicalize_pattern st ptype argPat argRegion with
    | none => rw [hc] at h; exact Option.noConfusion h
    | some r =>
      obtain ⟨stA, argOut, canPat⟩ := r
      obtain ⟨cpr, cpv⟩ := canPat
      rw [hc] at h
      dsimp only [CanState.fresh] at h
      cases hr : canonicalize_apply_args { stA with nextVar := stA.nextVar + 1 }
          ptype rest with
      | none => rw [hr] at h; exact Option.noConfusion h
      | some r2 =>
        obtain ⟨stB, restOut, restPats⟩ := r2
        rw [hr] at h
        dsimp only at h
        simp only [Option.some.injEq, Prod.mk.injEq] at h
        obtain ⟨rfl, rfl, rfl⟩ := h
        obtain ⟨hcext, hchome, hcopqs, hcbound, hcextr⟩ :=
          can_inv argPat st ptype argRegion stA argOut ⟨cpr, cpv⟩ hc
        obtain ⟨hrext, hrhome, hropqs, hrbound, hrextr⟩ :=
          can_args_inv rest { stA with nextVar := stA.nextVar + 1 }
            ptype stB restOut restPats hr
        have hnames : ∀ n ∈ SPattern.bindNames argPat,
            n ∈ SPattern.bindNamesArgs (⟨argRegion, argPat⟩ :: rest) := by
          intro n hn
          simp only [SPattern.bindNamesArgs, List.mem_append]
          exact Or.inl hn
        have hnamesR : ∀ n ∈ SPattern.bindNamesArgs rest,
            n ∈ SPattern.bindNamesArgs (⟨argRegion, argPat⟩ :: rest) := by
          intro n hn
          simp only [SPattern.bindNamesArgs, List.mem_append]
          exact Or.inr hn
        refine ⟨ext_trans hcext hrext, hrhome.trans hchome, hropqs.trans hcopqs,
          ?_, ?_⟩ <;> intro s hs
        · simp only [Output.union, List.mem_append] at hs
          cases hs with
          | inl hl =>
            exact mintedIn_names_mono _ _ _ _ _
              (mintedIn_mono_right _ _ _ _ _ (hcbound s hl) hrext) hnames
          | inr hr2 =>
            exact mintedIn_names_mono _ _ _ _ _
              (mintedIn_mono_left _ _ _ _ _ (hrbound s hr2) hcext hchome) hnamesR
        · have hsplit : symbols_from_tag_args ((stA.nextVar, ⟨cpr, cpv⟩) :: restPats) =
              symbols_from_pattern_help cpv ++ symbols_from_tag_args restPats := rfl
          rw [hsplit, List.mem_append] at hs
          cases hs with
          | inl hl =>
            exact opqOrMinted_up_right _ _ _ _ _ _ _ (hcextr s hl) hrext hnames
          | inr hr2 =>
            exact opqOrMinted_up_left _ _ _ _ _ _ _ _ (hrextr s hr2) hcopqs
              hcext hchome hnamesR

/-- The canonicalization invariant for the record-destructure field
loop, including the `opt_erroneous` sentinel. -/
theorem can_fields_inv (fields : List (Loc SPattern)) :
    ∀ (st : CanState) (ptype : PatternType) (region : Region)
      (st1 : CanState) (out : Output) (ds : List (Loc RecordDestruct))
      (optErr : Option Pattern),
    canonicalize_fields st ptype region fields = some (st1, out, ds, optErr) →
    (∃ t, st1.env.identIds = st.env.identIds ++ t) ∧
    st1.env.home = st.env.home ∧
    st1.scope.opqs = st.scope.opqs ∧
    (∀ s ∈ out.boundSymbols,
      MintedIn st.env st1.env (SPattern.bindNamesFields fields) s) ∧
    (∀ s ∈ symbols_from_destructs ds,
      OpqOrMinted st.scope st.env st1.env (SPattern.bindNamesFields fields) s) ∧
    (∀ ep, optErr = some ep → ∀ s ∈ symbols_from_pattern_help ep,
      OpqOrMinted st.scope st.env st1.env (SPattern.bindNamesFields fields) s) :=
  match fields with
  | [] => by
    intro st ptype region st1 out ds optErr h
    unfold canonicalize_fields at h
    simp only [Option.some.injEq, Prod.mk.injEq] at h
    obtain ⟨rfl, rfl, rfl, rfl⟩ := h
    refine ⟨⟨[], by simp⟩, rfl, rfl, ?_, ?_, ?_⟩
    · intro s hs
      simp [Output.empty] at hs
    · intro s hs
      simp [symbols_from_destructs] at hs
    · intro ep hep
      exact Option.noConfusion hep
  | ⟨fr, .identifier label⟩ :: rest => by
    intro st ptype region st1 out ds optErr h
    rw [canonicalize_fields_cons_ident] at h
    cases hl : Scope.lookup st.scope label with
    | none =>
      simp only [Scope.introduce, hl] at h
      cases hr : canonicalize_fields
          ⟨⟨st.env.home, st.env.identIds ++ [label], st.env.problems⟩,
            ⟨(label, ⟨st.env.home, st.env.identIds.length⟩, region) ::
              st.scope.idents, st.scope.opqs⟩, st.nextVar + 1⟩
          ptype region rest with
      | none => rw [hr] at h; exact Option.noConfusion h
      | some r =>
        obtain ⟨stB, restOut, restDs, restErr⟩ := r
        rw [hr] at h
        dsimp only at h
        simp only [Option.some.injEq, Prod.mk.injEq] at h
        obtain ⟨rfl, rfl, rfl, rfl⟩ := h
        obtain ⟨hrext, hrhome, hropqs, hrbound, hrextr, hrerr⟩ :=
          can_fields_inv rest _ ptype region stB restOut restDs restErr hr
        have hminted : MintedIn st.env stB.env
            (SPattern.bindNamesFields (⟨fr, .identifier label⟩ :: rest))
            ⟨st.env.home, st.env.identIds.length⟩ := by
          refine mintedIn_mono_right _ _ _ _ _ ?_ hrext
          exact mintedIn_single st.env.home st.env.identIds st.env.problems
            st.env.problems label _ (by simp [SPattern.bindNamesFields])
        have hnamesR : ∀ n ∈ SPattern.bindNamesFields rest,
            n ∈ SPattern.bindNamesFields (⟨fr, .identifier label⟩ :: rest) := by
          intro n hn
          simp only [SPattern.bindNamesFields, List.mem_cons]
          exact Or.inr hn
        have hcext : ∃ t,
            (⟨st.env.home, st.env.identIds ++ [label], st.env.problems⟩ : Env).identIds =
              st.env.identIds ++ t := ⟨[label], rfl⟩
        refine ⟨ext_trans hcext hrext, hrhome, hropqs, ?_, ?_, ?_⟩
        · intro s hs
          simp only [Output.union, Output.insertBound, Output.empty,
            List.nil_append, List.mem_append, List.mem_singleton] at hs
          cases hs with
          | inl hsl =>
            subst hsl
            exact hminted
          | inr hsr =>
            exact mintedIn_names_mono _ _ _ _ _
              (mintedIn_mono_left _ _ _ _ _ (hrbound s hsr) hcext rfl) hnamesR
        · intro s hs
          have hsplit : symbols_from_destructs
              (⟨fr, .mk st.nextVar label ⟨st.env.home, st.env.identIds.length⟩
                .required⟩ :: restDs) =
              (⟨st.env.home, st.env.identIds.length⟩ : Symbol) ::
                symbols_from_destructs restDs := rfl
          rw [hsplit, List.mem_cons] at hs
          cases hs with
          | inl hsl =>
            subst hsl
            exact Or.inr hminted
          | inr hsr =>
            exact opqOrMinted_up_left _ _ _ _ _ _ _ _ (hrextr s hsr) rfl hcext
              rfl hnamesR
        · intro ep hep s hs
          exact opqOrMinted_up_left _ _ _ _ _ _ _ _ (hrerr ep hep s hs) rfl hcext
            rfl hnamesR
    | some pr =>
      obtain ⟨origSym, origRegion⟩ := pr
      simp only [Scope.introduce, hl] at h
      cases hr : canonicalize_fields
          ⟨⟨st.env.home, st.env.identIds ++ [label],
              st.env.problems ++
                [.runtimeError (.shadowing origRegion ⟨region, label⟩)]⟩,
            st.scope, st.nextVar⟩ ptype region rest with
      | none => rw [hr] at h; exact Option.noConfusion h
      | some r =>
        obtain ⟨stB, restOut, restDs, restErr⟩ := r
        rw [hr] at h
        dsimp only at h
        simp only [Option.some.injEq, Prod.mk.injEq] at h
        obtain ⟨rfl, rfl, rfl, rfl⟩ := h
        obtain ⟨hrext, hrhome, hropqs, hrbound, hrextr, hrerr⟩ :=
          can_fields_inv rest _ ptype region stB restOut restDs restErr hr
        have hnamesR : ∀ n ∈ SPattern.bindNamesFields rest,
            n ∈ SPattern.bindNamesFields (⟨fr, .identifier label⟩ :: rest) := by
          intro n hn
          simp only [SPattern.bindNamesFields, List.mem_cons]
          exact Or.inr hn
        have hcext : ∃ t,
            (⟨st.env.home, st.env.identIds ++ [label],
                st.env.problems ++
                  [Problem.runtimeError
                    (RuntimeError.shadowing origRegion ⟨region, label⟩)]⟩ :
              Env).identIds = st.env.identIds ++ t := ⟨[label], rfl⟩
        refine ⟨ext_trans hcext hrext, hrhome, hropqs, ?_, ?_, ?_⟩
        · intro s hs
          exact mintedIn_names_mono _ _ _ _ _
            (mintedIn_mono_left _ _ _ _ _ (hrbound s hs) hcext rfl) hnamesR
        · intro s hs
          exact opqOrMinted_up_left _ _ _ _ _ _ _ _ (hrextr s hs) rfl hcext
            rfl hnamesR
        · intro ep hep s hs
          cases hrE : restErr with
          | some e =>
            rw [hrE] at hep
            simp only [Option.some.injEq] at hep
            subst hep
            exact opqOrMinted_up_left _ _ _ _ _ _ _ _ (hrerr e hrE s hs) rfl
              hcext rfl hnamesR
          | none =>
            rw [hrE] at hep
            simp only [Option.some.injEq] at hep
            subst hep
            simp only [symbols_from_pattern_help, List.mem_singleton] at hs
            subst hs
            refine Or.inr (mintedIn_mono_right _ _ _ _ _ ?_ hrext)
            exact mintedIn_single st.env.home st.env.identIds st.env.problems _
              label _ (by simp [SPattern.bindNamesFields])
  | ⟨fr, .requiredField label ⟨gr, gp⟩⟩ :: rest => by
    intro st ptype region st1 out ds optErr h
    rw [canonicalize_fields_cons_req] at h
    cases hg : canonicalize_pattern
        ⟨⟨st.env.home, st.env.identIds ++ [label], st.env.problems⟩,
          st.scope, st.nextVar⟩ ptype gp gr with
    | none => rw [hg] at h; exact Option.noConfusion h
    | some r =>
      obtain ⟨stG, guardOut, canGuard⟩ := r
      obtain ⟨cgr, cgv⟩ := canGuard
      rw [hg] at h
      dsimp only at h
      cases hr : canonicalize_fields { stG with nextVar := stG.nextVar + 2 }
          ptype region rest with
      | none => rw [hr] at h; exact Option.noConfusion h
      | some r2 =>
        obtain ⟨stB, restOut, restDs, restErr⟩ := r2
        rw [hr] at h
        dsimp only at h
        simp only [Option.some.injEq, Prod.mk.injEq] at h
        obtain ⟨rfl, rfl, rfl, rfl⟩ := h
        obtain ⟨hgext, hghome, hgopqs, hgbound, hgextr⟩ :=
          can_inv gp _ ptype gr stG guardOut ⟨cgr, cgv⟩ hg
        obtain ⟨hrext, hrhome, hropqs, hrbound, hrextr, hrerr⟩ :=
          can_fields_inv rest _ ptype region stB restOut restDs restErr hr
        have hcext : ∃ t,
            (⟨st.env.home, st.env.identIds ++ [label], st.env.problems⟩ :
              Env).identIds = st.env.identIds ++ t := ⟨[label], rfl⟩
        have hnamesG : ∀ n ∈ SPattern.bindNames gp,
            n ∈ SPattern.bindNamesFields
              (⟨fr, .requiredField label ⟨gr, gp⟩⟩ :: rest) := by
          intro n hn
          simp only [SPattern.bindNamesFields, List.mem_append]
          exact Or.inl hn
        have hnamesR : ∀ n ∈ SPattern.bindNamesFields rest,
            n ∈ SPattern.bindNamesFields
              (⟨fr, .requiredField label ⟨gr, gp⟩⟩ :: rest) := by
          intro n hn
          simp only [SPattern.bindNamesFields, List.mem_append]
          exact Or.inr hn
        refine ⟨ext_trans hcext (ext_trans hgext hrext),
          hrhome.trans hghome, hropqs.trans hgopqs, ?_, ?_, ?_⟩
        · intro s hs
          simp only [Output.union, List.mem_append] at hs
          cases hs with
          | inl hsl =>
            exact mintedIn_names_mono _ _ _ _ _
              (mintedIn_mono_right _ _ _ _ _
                (mintedIn_mono_left _ _ _ _ _ (hgbound s hsl) hcext rfl) hrext)
              hnamesG
          | inr hsr =>
            exact mintedIn_names_mono _ _ _ _ _
              (mintedIn_mono_left _ _ _ _ _ (hrbound s hsr)
                (ext_trans hcext hgext) (hghome.trans rfl)) hnamesR
        · intro s hs
          have hsplit : symbols_from_destructs
              (⟨fr, .mk stG.nextVar label ⟨st.env.home, st.env.identIds.length⟩
                (.guard (stG.nextVar + 1) ⟨cgr, cgv⟩)⟩ :: restDs) =
              symbols_from_pattern_help cgv ++ symbols_from_destructs restDs := rfl
          rw [hsplit, List.mem_append] at hs
          cases hs with
          | inl hsl =>
            exact opqOrMinted_up_right _ _ _ _ _ _ _
              (opqOrMinted_up_left _ _ _ _ _ _ _ _ (hgextr s hsl) rfl hcext rfl
                hnamesG) hrext (fun n hn => hn)
          | inr hsr =>
            exact opqOrMinted_up_left _ _ _ _ _ _ _ _ (hrextr s hsr) hgopqs
              (ext_trans hcext hgext) (hghome.trans rfl) hnamesR
        · intro ep hep s hs
          exact opqOrMinted_up_left _ _ _ _ _ _ _ _ (hrerr ep hep s hs) hgopqs
            (ext_trans hcext hgext) (hghome.trans rfl) hnamesR
  | ⟨fr, .optionalField label locD⟩ :: rest => by
    intro st ptype region st1 out ds optErr h
    rw [canonicalize_fields_cons_opt] at h
    cases hl : Scope.lookup st.scope label with
    | none =>
      simp only [Scope.introduce, hl] at h
      cases hr : canonicalize_fields
          ⟨⟨st.env.home, st.env.identIds ++ [label], st.env.problems⟩,
            ⟨(label, ⟨st.env.home, st.env.identIds.length⟩, region) ::
              st.scope.idents, st.scope.opqs⟩, st.nextVar + 2⟩
          ptype region rest with
      | none => rw [hr] at h; exact Option.noConfusion h
      | some r =>
        obtain ⟨stB, restOut, restDs, restErr⟩ := r
        rw [hr] at h
        dsimp only at h
        simp only [Option.some.injEq, Prod.mk.injEq] at h
        obtain ⟨rfl, rfl, rfl, rfl⟩ := h
        obtain ⟨hrext, hrhome, hropqs, hrbound, hrextr, hrerr⟩ :=
          can_fields_inv rest _ ptype region stB restOut restDs restErr hr
        have hminted : MintedIn st.env stB.env
            (SPattern.bindNamesFields (⟨fr, .optionalField label locD⟩ :: rest))
            ⟨st.env.home, st.env.identIds.length⟩ := by
          refine mintedIn_mono_right _ _ _ _ _ ?_ hrext
          exact mintedIn_single st.env.home st.env.identIds st.env.problems
            st.env.problems label _ (by simp [SPattern.bindNamesFields])
        have hnamesR : ∀ n ∈ SPattern.bindNamesFields rest,
            n ∈ SPattern.bindNamesFields (⟨fr, .optionalField label locD⟩ :: rest) := by
          intro n hn
          simp only [SPattern.bindNamesFields, List.mem_cons]
          exact Or.inr hn
        have hcext : ∃ t,
            (⟨st.env.home, st.env.identIds ++ [label], st.env.problems⟩ : Env).identIds =
              st.env.identIds ++ t := ⟨[label], rfl⟩
        refine ⟨ext_trans hcext hrext, hrhome, hropqs, ?_, ?_, ?_⟩
        · intro s hs
          simp only [Output.union, Output.insertBound, Output.empty,
            List.nil_append, List.append_nil, List.mem_append,
            List.mem_singleton] at hs
          cases hs with
          | inl hsl =>
            subst hsl
            exact hminted
          | inr hsr =>
            exact mintedIn_names_mono _ _ _ _ _
              (mintedIn_mono_left _ _ _ _ _ (hrbound s hsr) hcext rfl) hnamesR
        · intro s hs
          have hsplit : symbols_from_destructs
              (⟨fr, .mk st.nextVar label ⟨st.env.home, st.env.identIds.length⟩
                (.optional (st.nextVar + 1) ⟨locD.region, .defaultExpr locD.value⟩)⟩ ::
                restDs) =
              (⟨st.env.home, st.env.identIds.length⟩ : Symbol) ::
                symbols_from_destructs restDs := rfl
          rw [hsplit, List.mem_cons] at hs
          cases hs with
          | inl hsl =>
            subst hsl
            exact Or.inr hminted
          | inr hsr =>
            exact opqOrMinted_up_left _ _ _ _ _ _ _ _ (hrextr s hsr) rfl hcext
              rfl hnamesR
        · intro ep hep s hs
          exact opqOrMinted_up_left _ _ _ _ _ _ _ _ (hrerr ep hep s hs) rfl hcext
            rfl hnamesR
    | some pr =>
      obtain ⟨origSym, origRegion⟩ := pr
      simp only [Scope.introduce, hl] at h
      cases hr : canonicalize_fields
          ⟨⟨st.env.home, st.env.identIds ++ [label],
              st.env.problems ++
                [.runtimeError (.shadowing origRegion ⟨region, label⟩)]⟩,
            st.scope, st.nextVar⟩ ptype region rest with
      | none => rw [hr] at h; exact Option.noConfusion h
      | some r =>
        obtain ⟨stB, restOut, restDs, restErr⟩ := r
        rw [hr] at h
        dsimp only at h
        simp only [Option.some.injEq, Prod.mk.injEq] at h
        obtain ⟨rfl, rfl, rfl, rfl⟩ := h
        obtain ⟨hrext, hrhome, hropqs, hrbound, hrextr, hrerr⟩ :=
          can_fields_inv rest _ ptype region stB restOut restDs restErr hr
        have hnamesR : ∀ n ∈ SPattern.bindNamesFields rest,
            n ∈ SPattern.bindNamesFields (⟨fr, .optionalField label locD⟩ :: rest) := by
          intro n hn
          simp only [SPattern.bindNamesFields, List.mem_cons]
          exact Or.inr hn
        have hcext : ∃ t,
            (⟨st.env.home, st.env.identIds ++ [label],
                st.env.problems ++
                  [Problem.runtimeError
                    (RuntimeError.shadowing origRegion ⟨region, label⟩)]⟩ :
              Env).identIds = st.env.identIds ++ t := ⟨[label], rfl⟩
        refine ⟨ext_trans hcext hrext, hrhome, hropqs, ?_, ?_, ?_⟩
        · intro s hs
          exact mintedIn_names_mono _ _ _ _ _
            (mintedIn_mono_left _ _ _ _ _ (hrbound s hs) hcext rfl) hnamesR
        · intro s hs
          exact opqOrMinted_up_left _ _ _ _ _ _ _ _ (hrextr s hs) rfl hcext
            rfl hnamesR
        · intro ep hep s hs
          cases hrE : restErr with
          | some e =>
            rw [hrE] at hep
            simp only [Option.some.injEq] at hep
            subst hep
            exact opqOrMinted_up_left _ _ _ _ _ _ _ _ (hrerr e hrE s hs) rfl
              hcext rfl hnamesR
          | none =>
            rw [hrE] at hep
            simp only [Option.some.injEq] at hep
            subst hep
            simp only [symbols_from_pattern_help, List.mem_singleton] at hs
            subst hs
            refine Or.inr (mintedIn_mono_right _ _ _ _ _ ?_ hrext)
            exact mintedIn_single st.env.home st.env.identIds st.env.problems _
              label _ (by simp [SPattern.bindNamesFields])
  | ⟨fr, .globalTag n⟩ :: rest => by
    intro st ptype region st1 out ds optErr h
    exact Option.noConfusion h
  | ⟨fr, .privateTag n⟩ :: rest => by
    intro st ptype region st1 out ds optErr h
    exact Option.noConfusion h
  | ⟨fr, .opqRef n⟩ :: rest => by
    intro st ptype region st1 out ds optErr h
    exact Option.noConfusion h
  | ⟨fr, .apply t a⟩ :: rest => by
    intro st ptype region st1 out ds optErr h
    exact Option.noConfusion h
  | ⟨fr, .floatLiteral s0⟩ :: rest => by
    intro st ptype region st1 out ds optErr h
    exact Option.noConfusion h
  | ⟨fr, .numLiteral s0⟩ :: rest => by
    intro st ptype region st1 out ds optErr h
    exact Option.noConfusion h
  | ⟨fr, .nonBase10Literal d b ng⟩ :: rest => by
    intro st ptype region st1 out ds optErr h
    exact Option.noConfusion h
  | ⟨fr, .strLiteral l⟩ :: rest => by
    intro st ptype region st1 out ds optErr h
    exact Option.noConfusion h
  | ⟨fr, .underscore n⟩ :: rest => by
    intro st ptype region st1 out ds optErr h
    exact Option.noConfusion h
  | ⟨fr, .singleQuote s0⟩ :: rest => by
    intro st ptype region st1 out ds optErr h
    exact Option.noConfusion h
  | ⟨fr, .recordDestructure f⟩ :: rest => by
    intro st ptype region st1 out ds optErr h
    exact Option.noConfusion h
  | ⟨fr, .spaceBefore p⟩ :: rest => by
    intro st ptype region st1 out ds optErr h
    exact Option.noConfusion h
  | ⟨fr, .spaceAfter p⟩ :: rest => by
    intro st ptype region st1 out ds optErr h
    exact Option.noConfusion h
  | ⟨fr, .malformed s0⟩ :: rest => by
    intro st ptype region st1 out ds optErr h
    exact Option.noConfusion h
  | ⟨fr, .malformedIdent s0 c⟩ :: rest => by
    intro st ptype region st1 out ds optErr h
    exact Option.noConfusion h
  | ⟨fr, .qualifiedIdentifier⟩ :: rest => by
    intro st ptype region st1 out ds optErr h
    exact Option.noConfusion h
end

mutual
/-- The diagnostics sink is append-only: a successful canonicalization
only appends to the problems list. -/
theorem can_probs (pat : SPattern) :
    ∀ (st : CanState) (ptype : PatternType) (region : Region)
      (res : CanState × Output × Loc Pattern),
    canonicalize_pattern st ptype pat region = some res →
    ∃ t, res.1.env.problems = st.env.problems ++ t :=
  match pat with
  | .identifier name => by
    intro st ptype region res h
    unfold canonicalize_pattern at h
    cases hl : Scope.lookup st.scope name with
    | none =>
      simp only [Scope.introduce, hl] at h
      simp only [Option.some.injEq] at h
      subst h
      exact ⟨[], by simp⟩
    | some pr =>
      obtain ⟨origSym, origRegion⟩ := pr
      simp only [Scope.introduce, hl, Env.addProblem] at h
      simp only [Option.some.injEq] at h
      subst h
      exact ⟨_, rfl⟩
  | .globalTag name => by
    intro st ptype region res h
    unfold canonicalize_pattern at h
    dsimp only [CanState.fresh] at h
    simp only [Option.some.injEq] at h
    subst h
    exact ⟨[], by simp⟩
  | .privateTag name => by
    intro st ptype region res h
    unfold canonicalize_pattern at h
    dsimp only [CanState.fresh] at h
    simp only [Option.some.injEq] at h
    subst h
    exact ⟨[], by simp [(getOrInsert_ext st.env name).2.2]⟩
  | .opqRef name => by
    intro st ptype region res h
    unfold canonicalize_pattern Env.addProblem at h
    simp only [Option.some.injEq] at h
    subst h
    exact ⟨_, rfl⟩
  | .apply tag args => by
    intro st ptype region res h
    obtain ⟨tagRegion, tagVal⟩ := tag
    unfold canonicalize_pattern at h
    cases ha : canonicalize_apply_args st ptype args with
    | none => rw [ha] at h; exact Option.noConfusion h
    | some r =>
      obtain ⟨stA, argsOut, cps⟩ := r
      rw [ha] at h
      dsimp only at h
      obtain ⟨ta, hta⟩ := can_args_probs args st ptype (stA, argsOut, cps) ha
      cases tagVal <;> try exact Option.noConfusion h
      case globalTag name =>
        dsimp only [CanState.fresh] at h
        simp only [Option.some.injEq] at h
        subst h
        exact ⟨ta, hta⟩
      case privateTag name =>
        dsimp only [CanState.fresh] at h
        simp only [Option.some.injEq] at h
        subst h
        exact ext_trans ⟨ta, hta⟩ ⟨[], by simp [(getOrInsert_ext stA.env name).2.2]⟩
      case opqRef name =>
        dsimp only at h
        cases hlook : Scope.lookupOpqRef stA.scope name tagRegion with
        | ok pr =>
          obtain ⟨opq, opqDef⟩ := pr
          rw [hlook] at h
          dsimp only at h
          by_cases hie : cps.isEmpty
          · rw [if_pos hie] at h
            exact Option.noConfusion h
          · rw [if_neg hie] at h
            by_cases hgt : 1 < cps.length
            · rw [if_pos hgt] at h
              unfold Env.addProblem at h
              simp only [Option.some.injEq] at h
              subst h
              exact ext_trans ⟨ta, hta⟩ ⟨_, rfl⟩
            · rw [if_neg hgt] at h
              cases hgl : cps.getLast? with
              | none => rw [hgl] at h; exact Option.noConfusion h
              | some argument =>
                rw [hgl] at h
                dsimp only [freshenOpqDef, CanState.fresh] at h
                simp only [Option.some.injEq] at h
                subst h
                exact ⟨ta, hta⟩
        | error e =>
          rw [hlook] at h
          unfold Env.addProblem at h
          simp only [Option.some.injEq] at h
          subst h
          exact ext_trans ⟨ta, hta⟩ ⟨_, rfl⟩
  | .floatLiteral s0 => by
    intro st ptype region res h
    unfold canonicalize_pattern unsupported_pattern malformed_pattern
      Env.addProblem at h
    split at h
    all_goals try split at h
    all_goals
      first
      | exact Option.noConfusion h
      | (try dsimp only [CanState.fresh] at h
         simp only [Option.some.injEq] at h
         subst h
         first
         | exact ⟨_, rfl⟩
         | exact ⟨[], (List.append_nil _).symm⟩)
  | .numLiteral s0 => by
    intro st ptype region res h
    unfold canonicalize_pattern unsupported_pattern malformed_pattern
      Env.addProblem at h
    split at h
    all_goals try split at h
    all_goals
      first
      | exact Option.noConfusion h
      | (try dsimp only [CanState.fresh] at h
         simp only [Option.some.injEq] at h
         subst h
         first
         | exact ⟨_, rfl⟩
         | exact ⟨[], (List.append_nil _).symm⟩)
  | .nonBase10Literal digits base isNegative => by
    intro st ptype region res h
    unfold canonicalize_pattern unsupported_pattern malformed_pattern
      Env.addProblem at h
    split at h
    all_goals try split at h
    all_goals try split at h
    all_goals
      first
      | exact Option.noConfusion h
      | (try dsimp only [CanState.fresh] at h
         simp only [Option.some.injEq] at h
         subst h
         first
         | exact ⟨_, rfl⟩
         | exact ⟨[], (List.append_nil _).symm⟩)
  | .strLiteral lit => by
    intro st ptype region res h
    unfold canonicalize_pattern unsupported_pattern Env.addProblem at h
    split at h
    all_goals try split at h
    all_goals
      first
      | exact Option.noConfusion h
      | (simp only [Option.some.injEq] at h
         subst h
         first
         | exact ⟨_, rfl⟩
         | exact ⟨[], (List.append_nil _).symm⟩)
  | .underscore name => by
    intro st ptype region res h
    unfold canonicalize_pattern bad_underscore Env.addProblem at h
    split at h
    all_goals
      (simp only [Option.some.injEq] at h
       subst h
       first
       | exact ⟨_, rfl⟩
       | exact ⟨[], (List.append_nil _).symm⟩)
  | .singleQuote s0 => by
    intro st ptype region res h
    unfold canonicalize_pattern malformed_pattern Env.addProblem at h
    split at h
    all_goals
      (simp only [Option.some.injEq] at h
       subst h
       first
       | exact ⟨_, rfl⟩
       | exact ⟨[], (List.append_nil _).symm⟩)
  | .spaceBefore sub => by
    intro st ptype region res h
    exact can_probs sub st ptype region res h
  | .spaceAfter sub => by
    intro st ptype region res h
    exact can_probs sub st ptype region res h
  | .recordDestructure fields => by
    intro st ptype region res h
    unfold canonicalize_pattern at h
    dsimp only [CanState.fresh] at h
    cases hf : canonicalize_fields { st with nextVar := st.nextVar + 2 }
        ptype region fields with
    | none => rw [hf] at h; exact Option.noConfusion h
    | some r =>
      obtain ⟨stF, outF, ds, optErr⟩ := r
      rw [hf] at h
      dsimp only at h
      simp only [Option.some.injEq] at h
      subst h
      exact can_fields_probs fields { st with nextVar := st.nextVar + 2 }
        ptype region (stF, outF, ds, optErr) hf
  | .requiredField label g => by
    intro st ptype region res h
    exact Option.noConfusion h
  | .optionalField label d => by
    intro st ptype region res h
    exact Option.noConfusion h
  | .malformed s0 => by
    intro st ptype region res h
    unfold canonicalize_pattern malformed_pattern Env.addProblem at h
    simp only [Option.some.injEq] at h
    subst h
    exact ⟨_, rfl⟩
  | .malformedIdent s0 code => by
    intro st ptype region res h
    unfold canonicalize_pattern malformed_pattern Env.addProblem at h
    simp only [Option.some.injEq] at h
    subst h
    exact ⟨_, rfl⟩
  | .qualifiedIdentifier => by
    intro st ptype region res h
    unfold canonicalize_pattern malformed_pattern Env.addProblem at h
    simp only [Option.some.injEq] at h
    subst h
    exact ⟨_, rfl⟩

/-- Append-only diagnostics for the apply-argument loop. -/
theorem can_args_probs (args : List (Loc SPattern)) :
    ∀ (st : CanState) (ptype : PatternType)
      (res : CanState × Output × List (Nat × Loc Pattern)),
    canonicalize_apply_args st ptype args = some res →
    ∃ t, res.1.env.problems = st.env.problems ++ t :=
  match args with
  | [] => by
    intro st ptype res h
    unfold canonicalize_apply_args at h
    simp only [Option.some.injEq] at h
    subst h
    exact ⟨[], by simp⟩
  | ⟨argRegion, argPat⟩ :: rest => by
    intro st ptype res h
    unfold canonicalize_apply_args at h
    cases hc : canonicalize_pattern st ptype argPat argRegion with
    | none => rw [hc] at h; exact Option.noConfusion h
    | some r =>
      obtain ⟨stA, argOut, canPat⟩ := r
      rw [hc] at h
      dsimp only [CanState.fresh] at h
      cases hr : canonicalize_apply_args { stA with nextVar := stA.nextVar + 1 }
          ptype rest with
      | none => rw [hr] at h; exact Option.noConfusion h
      | some r2 =>
        obtain ⟨stB, restOut, restPats⟩ := r2
        rw [hr] at h
        dsimp only at h
        simp only [Option.some.injEq] at h
        subst h
        exact ext_trans (can_probs argPat st ptype argRegion (stA, argOut, canPat) hc)
          (can_args_probs rest { stA with nextVar := stA.nextVar + 1 } ptype
            (stB, restOut, restPats) hr)

/-- Append-only diagnostics for the record-destructure field loop. -/
theorem can_fields_probs (fields : List (Loc SPattern)) :
    ∀ (st : CanState) (ptype : PatternType) (region : Region)
      (res : CanState × Output × List (Loc RecordDestruct) × Option Pattern),
    canonicalize_fields st ptype region fields = some res →
    ∃ t, res.1.env.problems = st.env.problems ++ t :=
  match fields with
  | [] => by
    intro st ptype region res h
    unfold canonicalize_fields at h
    simp only [Option.some.injEq] at h
    subst h
    exact ⟨[], by simp⟩
  | ⟨fr, .identifier label⟩ :: rest => by
    intro st ptype region res h
    rw [canonicalize_fields_cons_ident] at h
    cases hl : Scope.lookup st.scope label with
    | none =>
      simp only [Scope.introduce, hl] at h
      cases hr : canonicalize_fields
          ⟨⟨st.env.home, st.env.identIds ++ [label], st.env.problems⟩,
            ⟨(label, ⟨st.env.home, st.env.identIds.length⟩, region) ::
              st.scope.idents, st.scope.opqs⟩, st.nextVar + 1⟩
          ptype region rest with
      | none => rw [hr] at h; exact Option.noConfusion h
      | some r =>
        obtain ⟨stB, restOut, restDs, restErr⟩ := r
        rw [hr] at h
        dsimp only at h
        simp only [Option.some.injEq] at h
        subst h
        exact can_fields_probs rest
          ⟨⟨st.env.home, st.env.identIds ++ [label], st.env.problems⟩,
            ⟨(label, ⟨st.env.home, st.env.identIds.length⟩, region) ::
              st.scope.idents, st.scope.opqs⟩, st.nextVar + 1⟩
          ptype region (stB, restOut, restDs, restErr) hr
    | some pr =>
      obtain ⟨origSym, origRegion⟩ := pr
      simp only [Scope.introduce, hl] at h
      cases hr : canonicalize_fields
          ⟨⟨st.env.home, st.env.identIds ++ [label],
              st.env.problems ++
                [.runtimeError (.shadowing origRegion ⟨region, label⟩)]⟩,
            st.scope, st.nextVar⟩ ptype region rest with
      | none => rw [hr] at h; exact Option.noConfusion h
      | some r =>
        obtain ⟨stB, restOut, restDs, restErr⟩ := r
        rw [hr] at h
        dsimp only at h
        simp only [Option.some.injEq] at h
        subst h
        exact ext_trans ⟨_, rfl⟩
          (can_fields_probs rest
            ⟨⟨st.env.home, st.env.identIds ++ [label],
                st.env.problems ++
                  [.runtimeError (.shadowing origRegion ⟨region, label⟩)]⟩,
              st.scope, st.nextVar⟩
            ptype region (stB, restOut, restDs, restErr) hr)
  | ⟨fr, .requiredField label ⟨gr, gp⟩⟩ :: rest => by
    intro st ptype region res h
    rw [canonicalize_fields_cons_req] at h
    cases hg : canonicalize_pattern
        ⟨⟨st.env.home, st.env.identIds ++ [label], st.env.problems⟩,
          st.scope, st.nextVar⟩ ptype gp gr with
    | none => rw [hg] at h; exact Option.noConfusion h
    | some r =>
      obtain ⟨stG, guardOut, canGuard⟩ := r
      rw [hg] at h
      dsimp only at h
      cases hr : canonicalize_fields { stG with nextVar := stG.nextVar + 2 }
          ptype region rest with
      | none => rw [hr] at h; exact Option.noConfusion h
      | some r2 =>
        obtain ⟨stB, restOut, restDs, restErr⟩ := r2
        rw [hr] at h
        dsimp only at h
        simp only [Option.some.injEq] at h
        subst h
        exact ext_trans
          (can_probs gp
            ⟨⟨st.env.home, st.env.identIds ++ [label], st.env.problems⟩,
              st.scope, st.nextVar⟩
            ptype gr (stG, guardOut, canGuard) hg)
          (can_fields_probs rest { stG with nextVar := stG.nextVar + 2 }
            ptype region (stB, restOut, restDs, restErr) hr)
  | ⟨fr, .optionalField label locD⟩ :: rest => by
    intro st ptype region res h
    rw [canonicalize_fields_cons_opt] at h
    cases hl : Scope.lookup st.scope label with
    | none =>
      simp only [Scope.introduce, hl] at h
      cases hr : canonicalize_fields
          ⟨⟨st.env.home, st.env.identIds ++ [label], st.env.problems⟩,
            ⟨(label, ⟨st.env.home, st.env.identIds.length⟩, region) ::
              st.scope.idents, st.scope.opqs⟩, st.nextVar + 2⟩
          ptype region rest with
      | none => rw [hr] at h; exact Option.noConfusion h
      | some r =>
        obtain ⟨stB, restOut, restDs, restErr⟩ := r
        rw [hr] at h
        dsimp only at h
        simp only [Option.some.injEq] at h
        subst h
        exact can_fields_probs rest
          ⟨⟨st.env.home, st.env.identIds ++ [label], st.env.problems⟩,
            ⟨(label, ⟨st.env.home, st.env.identIds.length⟩, region) ::
              st.scope.idents, st.scope.opqs⟩, st.nextVar + 2⟩
          ptype region (stB, restOut, restDs, restErr) hr
    | some pr =>
      obtain ⟨origSym, origRegion⟩ := pr
      simp only [Scope.introduce, hl] at h
      cases hr : canonicalize_fields
          ⟨⟨st.env.home, st.env.identIds ++ [label],
              st.env.problems ++
                [.runtimeError (.shadowing origRegion ⟨region, label⟩)]⟩,
            st.scope, st.nextVar⟩ ptype region rest with
      | none => rw [hr] at h; exact Option.noConfusion h
      | some r =>
        obtain ⟨stB, restOut, restDs, restErr⟩ := r
        rw [hr] at h
        dsimp only at h
        simp only [Option.some.injEq] at h
        subst h
        exact ext_trans ⟨_, rfl⟩
          (can_fields_probs rest
            ⟨⟨st.env.home, st.env.identIds ++ [label],
                st.env.problems ++
                  [.runtimeError (.shadowing origRegion ⟨region, label⟩)]⟩,
              st.scope, st.nextVar⟩
            ptype region (stB, restOut, restDs, restErr) hr)
  | ⟨fr, .globalTag n⟩ :: rest => by
    intro st ptype region res h
    exact Option.noConfusion h
  | ⟨fr, .privateTag n⟩ :: rest => by
    intro st ptype region res h
    exact Option.noConfusion h
  | ⟨fr, .opqRef n⟩ :: rest => by
    intro st ptype region res h
    exact Option.noConfusion h
  | ⟨fr, .apply t a⟩ :: rest => by
    intro st ptype region res h
    exact Option.noConfusion h
  | ⟨fr, .floatLiteral s0⟩ :: rest => by
    intro st ptype region res h
    exact Option.noConfusion h
  | ⟨fr, .numLiteral s0⟩ :: rest => by
    intro st ptype region res h
    exact Option.noConfusion h
  | ⟨fr, .nonBase10Literal d b ng⟩ :: rest => by
    intro st ptype region res h
    exact Option.noConfusion h
  | ⟨fr, .strLiteral l⟩ :: rest => by
    intro st ptype region res h
    exact Option.noConfusion h
  | ⟨fr, .underscore n⟩ :: rest => by
    intro st ptype region res h
    exact Option.noConfusion h
  | ⟨fr, .singleQuote s0⟩ :: rest => by
    intro st ptype region res h
    exact Option.noConfusion h
  | ⟨fr, .recordDestructure f⟩ :: rest => by
    intro st ptype region res h
    exact Option.noConfusion h
  | ⟨fr, .spaceBefore p⟩ :: rest => by
    intro st ptype region res h
    exact Option.noConfusion h
  | ⟨fr, .spaceAfter p⟩ :: rest => by
    intro st ptype region res h
    exact Option.noConfusion h
  | ⟨fr, .malformed s0⟩ :: rest => by
    intro st ptype region res h
    exact Option.noConfusion h
  | ⟨fr, .malformedIdent s0 c⟩ :: rest => by
    intro st ptype region res h
    exact Option.noConfusion h
  | ⟨fr, .qualifiedIdentifier⟩ :: rest => by
    intro st ptype region res h
    exact Option.noConfusion h
end

/-- One-step equation for `fieldConflicts` at a bare identifier
field. -/
theorem fieldConflicts_cons_ident (st : CanState) (ptype : PatternType)
    (region fr : Region) (label : String) (rest : List (Loc SPattern)) :
    fieldConflicts ptype region st (⟨fr, .identifier label⟩ :: rest) =
      (match Scope.introduce st.scope st.env.home st.env.identIds label region with
       | (.ok _, scope1, ids1) =>
         fieldConflicts ptype region
           ⟨⟨st.env.home, ids1, st.env.problems⟩, scope1, st.nextVar + 1⟩ rest
       | (.shadow o sh n, scope1, ids1) =>
         (fieldConflicts ptype region
           ⟨⟨st.env.home, ids1,
               st.env.problems ++ [.runtimeError (.shadowing o sh)]⟩,
             scope1, st.nextVar⟩ rest).map
           (fun r => (r.1, (o, sh, n) :: r.2))) := by
  cases h : Scope.introduce st.scope st.env.home st.env.identIds label region with
  | mk res pr =>
    obtain ⟨scope1, ids1⟩ := pr
    cases res <;> simp only [fieldConflicts, h]

/-- One-step equation for `fieldConflicts` at a guarded field. -/
theorem fieldConflicts_cons_req (st : CanState) (ptype : PatternType)
    (region fr : Region) (label : String) (gr : Region) (gp : SPattern)
    (rest : List (Loc SPattern)) :
    fieldConflicts ptype region st (⟨fr, .requiredField label ⟨gr, gp⟩⟩ :: rest) =
      (match canonicalize_pattern
          ⟨⟨st.env.home, st.env.identIds ++ [label], st.env.problems⟩,
            st.scope, st.nextVar⟩ ptype gp gr with
       | none => none
       | some (st2, _, _) =>
         fieldConflicts ptype region { st2 with nextVar := st2.nextVar + 2 } rest) := by
  cases hg : canonicalize_pattern
      ⟨⟨st.env.home, st.env.identIds ++ [label], st.env.problems⟩,
        st.scope, st.nextVar⟩ ptype gp gr with
  | none => simp only [fieldConflicts, hg]
  | some r =>
    obtain ⟨st2, guardOut, canGuard⟩ := r
    simp only [fieldConflicts, hg]

/-- One-step equation for `fieldConflicts` at an optional field. -/
theorem fieldConflicts_cons_opt (st : CanState) (ptype : PatternType)
    (region fr : Region) (label : String) (locD : Loc Nat)
    (rest : List (Loc SPattern)) :
    fieldConflicts ptype region st (⟨fr, .optionalField label locD⟩ :: rest) =
      (match Scope.introduce st.scope st.env.home st.env.identIds label region with
       | (.ok _, scope1, ids1) =>
         fieldConflicts ptype region
           ⟨⟨st.env.home, ids1, st.env.problems⟩, scope1, st.nextVar + 2⟩ rest
       | (.shadow o sh n, scope1, ids1) =>
         (fieldConflicts ptype region
           ⟨⟨st.env.home, ids1,
               st.env.problems ++ [.runtimeError (.shadowing o sh)]⟩,
             scope1, st.nextVar⟩ rest).map
           (fun r => (r.1, (o, sh, n) :: r.2))) := by
  cases h : Scope.introduce st.scope st.env.home st.env.identIds label region with
  | mk res pr =>
    obtain ⟨scope1, ids1⟩ := pr
    cases res <;> simp only [fieldConflicts, h]

/-- Prepending a conflict to the list makes the stored sentinel the
last conflict's one: the `opt_erroneous` slot keeps the most recently
detected conflict. -/
theorem optErrLast (o : Region) (sh : Loc String) (n : Symbol)
    (cs : List (Region × Loc String × Symbol)) :
    (match cs.getLast?.map (fun c => Pattern.shadowed c.1 c.2.1 c.2.2) with
     | some e => some e
     | none => some (Pattern.shadowed o sh n)) =
      ((o, sh, n) :: cs).getLast?.map
        (fun c => Pattern.shadowed c.1 c.2.1 c.2.2) := by
  cases cs with
  | nil => rfl
  | cons d t =>
    rw [List.getLast?_cons_cons]
    cases hgl : (d :: t).getLast? with
    | none =>
      rw [List.getLast?_eq_none] at hgl
      exact absurd hgl (List.cons_ne_nil d t)
    | some e => rfl

/-- Master correspondence for the record-destructure field loop: on a
well-formed, panic-free field list the loop succeeds, the conflict
replay succeeds with the same final state, every field yields either a
destruct or a conflict, the `opt_erroneous` slot holds exactly the last
conflict's shadowing sentinel, and each conflict's diagnostic is in the
final problems list. -/
theorem canonicalize_fields_conflicts (fields : List (Loc SPattern)) :
    ∀ (st : CanState) (ptype : PatternType) (region : Region),
    SPattern.wfFieldsB fields = true → SPattern.noPanicFieldsB fields = true →
    ∃ st1 out ds cs,
      canonicalize_fields st ptype region fields =
        some (st1, out, ds,
          cs.getLast?.map (fun c => Pattern.shadowed c.1 c.2.1 c.2.2)) ∧
      fieldConflicts ptype region st fields = some (st1, cs) ∧
      ds.length + cs.length = fields.length ∧
      ∀ c ∈ cs, Problem.runtimeError (.shadowing c.1 c.2.1) ∈ st1.env.problems :=
  match fields with
  | [] => fun st ptype region _ _ =>
    ⟨st, Output.empty, [], [], rfl, rfl, rfl, fun c hc => nomatch hc⟩
  | ⟨fr, .identifier label⟩ :: rest => by
    intro st ptype region hwf hnp
    simp only [SPattern.wfFieldsB] at hwf
    simp only [SPattern.noPanicFieldsB] at hnp
    rw [canonicalize_fields_cons_ident, fieldConflicts_cons_ident]
    cases hl : Scope.lookup st.scope label with
    | none =>
      simp only [Scope.introduce, hl]
      obtain ⟨st1, out, ds, cs, hcf, hfc, hlen, hmem⟩ :=
        canonicalize_fields_conflicts rest
          ⟨⟨st.env.home, st.env.identIds ++ [label], st.env.problems⟩,
            ⟨(label, ⟨st.env.home, st.env.identIds.length⟩, region) ::
              st.scope.idents, st.scope.opqs⟩, st.nextVar + 1⟩
          ptype region hwf hnp
      rw [hcf, hfc]
      exact ⟨st1,
        (Output.empty.insertBound ⟨st.env.home, st.env.identIds.length⟩).union out,
        ⟨fr, .mk st.nextVar label ⟨st.env.home, st.env.identIds.length⟩ .required⟩ ::
          ds, cs, rfl, rfl,
        by simp only [List.length_cons]; omega, hmem⟩
    | some pr =>
      obtain ⟨origSym, origRegion⟩ := pr
      simp only [Scope.introduce, hl]
      obtain ⟨st1, out, ds, cs, hcf, hfc, hlen, hmem⟩ :=
        canonicalize_fields_conflicts rest
          ⟨⟨st.env.home, st.env.identIds ++ [label],
              st.env.problems ++
                [.runtimeError (.shadowing origRegion ⟨region, label⟩)]⟩,
            st.scope, st.nextVar⟩
          ptype region hwf hnp
      rw [hcf, hfc]
      refine ⟨st1, out, ds,
        (origRegion, ⟨region, label⟩, ⟨st.env.home, st.env.identIds.length⟩) :: cs,
        ?_, rfl, by simp only [List.length_cons]; omega, ?_⟩
      · exact congrArg (fun z => some (st1, out, ds, z))
          (optErrLast origRegion ⟨region, label⟩
            ⟨st.env.home, st.env.identIds.length⟩ cs)
      · intro c hc
        rcases List.mem_cons.mp hc with hc | hc
        · subst hc
          obtain ⟨t, ht⟩ := can_fields_probs rest
            ⟨⟨st.env.home, st.env.identIds ++ [label],
                st.env.problems ++
                  [.runtimeError (.shadowing origRegion ⟨region, label⟩)]⟩,
              st.scope, st.nextVar⟩
            ptype region _ hcf
          rw [ht]
          simp
        · exact hmem c hc
  | ⟨fr, .requiredField label ⟨gr, gp⟩⟩ :: rest => by
    intro st ptype region hwf hnp
    simp only [SPattern.wfFieldsB, Bool.and_eq_true] at hwf
    simp only [SPattern.noPanicFieldsB, Bool.and_eq_true] at hnp
    rw [canonicalize_fields_cons_req, fieldConflicts_cons_req]
    have hg := canonicalize_pattern_total gp
      ⟨⟨st.env.home, st.env.identIds ++ [label], st.env.problems⟩,
        st.scope, st.nextVar⟩ ptype gr hwf.1 hnp.1
    cases hc : canonicalize_pattern
        ⟨⟨st.env.home, st.env.identIds ++ [label], st.env.problems⟩,
          st.scope, st.nextVar⟩ ptype gp gr with
    | none => rw [hc] at hg; simp at hg
    | some r =>
      obtain ⟨st2, guardOut, canGuard⟩ := r
      dsimp only
      obtain ⟨st1, out, ds, cs, hcf, hfc, hlen, hmem⟩ :=
        canonicalize_fields_conflicts rest { st2 with nextVar := st2.nextVar + 2 }
          ptype region hwf.2 hnp.2
      rw [hcf, hfc]
      exact ⟨st1, guardOut.union out,
        ⟨fr, .mk st2.nextVar label ⟨st.env.home, st.env.identIds.length⟩
          (.guard (st2.nextVar + 1) canGuard)⟩ :: ds, cs, rfl, rfl,
        by simp only [List.length_cons]; omega, hmem⟩
  | ⟨fr, .optionalField label locD⟩ :: rest => by
    intro st ptype region hwf hnp
    simp only [SPattern.wfFieldsB] at hwf
    simp only [SPattern.noPanicFieldsB] at hnp
    rw [canonicalize_fields_cons_opt, fieldConflicts_cons_opt]
    cases hl : Scope.lookup st.scope label with
    | none =>
      simp only [Scope.introduce, hl]
      obtain ⟨st1, out, ds, cs, hcf, hfc, hlen, hmem⟩ :=
        canonicalize_fields_conflicts rest
          ⟨⟨st.env.home, st.env.identIds ++ [label], st.env.problems⟩,
            ⟨(label, ⟨st.env.home, st.env.identIds.length⟩, region) ::
              st.scope.idents, st.scope.opqs⟩, st.nextVar + 2⟩
          ptype region hwf hnp
      rw [hcf, hfc]
      exact ⟨st1,
        ((Output.empty.insertBound ⟨st.env.home, st.env.identIds.length⟩).union
          Output.empty).union out,
        ⟨fr, .mk st.nextVar label ⟨st.env.home, st.env.identIds.length⟩
          (.optional (st.nextVar + 1) ⟨locD.region, .defaultExpr locD.value⟩)⟩ ::
          ds, cs, rfl, rfl,
        by simp only [List.length_cons]; omega, hmem⟩
    | some pr =>
      obtain ⟨origSym, origRegion⟩ := pr
      simp only [Scope.introduce, hl]
      obtain ⟨st1, out, ds, cs, hcf, hfc, hlen, hmem⟩ :=
        canonicalize_fields_conflicts rest
          ⟨⟨st.env.home, st.env.identIds ++ [label],
              st.env.problems ++
                [.runtimeError (.shadowing origRegion ⟨region, label⟩)]⟩,
            st.scope, st.nextVar⟩
          ptype region hwf hnp
      rw [hcf, hfc]
      refine ⟨st1, out, ds,
        (origRegion, ⟨region, label⟩, ⟨st.env.home, st.env.identIds.length⟩) :: cs,
        ?_, rfl, by simp only [List.length_cons]; omega, ?_⟩
      · exact congrArg (fun z => some (st1, out, ds, z))
          (optErrLast origRegion ⟨region, label⟩
            ⟨st.env.home, st.env.identIds.length⟩ cs)
      · intro c hc
        rcases List.mem_cons.mp hc with hc | hc
        · subst hc
          obtain ⟨t, ht⟩ := can_fields_probs rest
            ⟨⟨st.env.home, st.env.identIds ++ [label],
                st.env.problems ++
                  [.runtimeError (.shadowing origRegion ⟨region, label⟩)]⟩,
              st.scope, st.nextVar⟩
            ptype region _ hcf
          rw [ht]
          simp
        · exact hmem c hc
  | ⟨fr, .globalTag n⟩ :: rest => by
    intro st ptype region hwf _
    simp [SPattern.wfFieldsB] at hwf
  | ⟨fr, .privateTag n⟩ :: rest => by
    intro st ptype region hwf _
    simp [SPattern.wfFieldsB] at hwf
  | ⟨fr, .opqRef n⟩ :: rest => by
    intro st ptype region hwf _
    simp [SPattern.wfFieldsB] at hwf
  | ⟨fr, .apply t a⟩ :: rest => by
    intro st ptype region hwf _
    simp [SPattern.wfFieldsB] at hwf
  | ⟨fr, .floatLiteral s⟩ :: rest => by
    intro st ptype region hwf _
    simp [SPattern.wfFieldsB] at hwf
  | ⟨fr, .numLiteral s⟩ :: rest => by
    intro st ptype region hwf _
    simp [SPattern.wfFieldsB] at hwf
  | ⟨fr, .nonBase10Literal d b n⟩ :: rest => by
    intro st ptype region hwf _
    simp [SPattern.wfFieldsB] at hwf
  | ⟨fr, .strLiteral l⟩ :: rest => by
    intro st ptype region hwf _
    simp [SPattern.wfFieldsB] at hwf
  | ⟨fr, .underscore n⟩ :: rest => by
    intro st ptype region hwf _
    simp [SPattern.wfFieldsB] at hwf
  | ⟨fr, .singleQuote s⟩ :: rest => by
    intro st ptype region hwf _
    simp [SPattern.wfFieldsB] at hwf
  | ⟨fr, .recordDestructure f⟩ :: rest => by
    intro st ptype region hwf _
    simp [SPattern.wfFieldsB] at hwf
  | ⟨fr, .spaceBefore p⟩ :: rest => by
    intro st ptype region hwf _
    simp [SPattern.wfFieldsB] at hwf
  | ⟨fr, .spaceAfter p⟩ :: rest => by
    intro st ptype region hwf _
    simp [SPattern.wfFieldsB] at hwf
  | ⟨fr, .malformed s⟩ :: rest => by
    intro st ptype region hwf _
    simp [SPattern.wfFieldsB] at hwf
  | ⟨fr, .malformedIdent s c⟩ :: rest => by
    intro st ptype region hwf _
    simp [SPattern.wfFieldsB] at hwf
  | ⟨fr, .qualifiedIdentifier⟩ :: rest => by
    intro st ptype region hwf _
    simp [SPattern.wfFieldsB] at hwf

/-- C5: shadowing conflicts among a record destructure's fields do not
stop iteration. For every well-formed, panic-free field list (bare,
guarded and optional fields alike) and every starting state, the field
loop processes every field (each yields either a destruct or a detected
conflict), appends one Shadowing diagnostic per conflict — all present
in the final problems list — and the destructure's canonical result is
the Shadowed sentinel of the most recently detected conflict whenever
at least one conflict exists (a RecordDestructure node otherwise). -/
theorem c5_destructure_shadow_collapse (st : CanState) (ptype : PatternType)
    (region : Region) (fields : List (Loc SPattern))
    (hwf : SPattern.wfFieldsB fields = true)
    (hnp : SPattern.noPanicFieldsB fields = true) :
    ∃ st1 out ds cs,
      fieldConflicts ptype region { st with nextVar := st.nextVar + 2 } fields =
        some (st1, cs) ∧
      canonicalize_pattern st ptype (.recordDestructure fields) region =
        some (st1, out, ⟨region,
          (cs.getLast?.map (fun c => Pattern.shadowed c.1 c.2.1 c.2.2)).getD
            (.recordDestructure (st.nextVar + 1) st.nextVar ds)⟩) ∧
      ds.length + cs.length = fields.length ∧
      (∀ c ∈ cs, Problem.runtimeError (.shadowing c.1 c.2.1) ∈ st1.env.problems) ∧
      (∀ o sh n, cs.getLast? = some (o, sh, n) →
        canonicalize_pattern st ptype (.recordDestructure fields) region =
          some (st1, out, ⟨region, .shadowed o sh n⟩)) := by
  obtain ⟨st1, out, ds, cs, hcf, hfc, hlen, hmem⟩ :=
    canonicalize_fields_conflicts fields { st with nextVar := st.nextVar + 2 }
      ptype region hwf hnp
  refine ⟨st1, out, ds, cs, hfc, ?_, hlen, hmem, ?_⟩
  · unfold canonicalize_pattern
    dsimp only [CanState.fresh]
    rw [hcf]
  · intro o sh n hlast
    unfold canonicalize_pattern
    dsimp only [CanState.fresh]
    rw [hcf, hlast]
    rfl

def c5fields : List (Loc SPattern) :=
  [⟨1, .identifier "x"⟩,
   ⟨2, .requiredField "g" ⟨3, .underscore ""⟩⟩,
   ⟨4, .optionalField "x" ⟨5, 0⟩⟩]

/-- C5 witness: a destructure mixing a bare field, a guarded field and
an optional field whose label collides with the bare one — the
optional-field shadow path is exercised, every field is processed, and
the result collapses to the conflict's Shadowed sentinel. -/
theorem c5_destructure_shadow_collapse_witness :
    SPattern.wfFieldsB c5fields = true ∧
    SPattern.noPanicFieldsB c5fields = true ∧
    (∃ st1 out ds cs,
      fieldConflicts .whenBranch 9 { st0 with nextVar := st0.nextVar + 2 }
          c5fields = some (st1, cs) ∧
      canonicalize_pattern st0 .whenBranch (.recordDestructure c5fields) 9 =
        some (st1, out, ⟨9,
          (cs.getLast?.map (fun c => Pattern.shadowed c.1 c.2.1 c.2.2)).getD
            (.recordDestructure (st0.nextVar + 1) st0.nextVar ds)⟩) ∧
      ds.length + cs.length = c5fields.length ∧
      (∀ c ∈ cs, Problem.runtimeError (.shadowing c.1 c.2.1) ∈ st1.env.problems) ∧
      (∀ o sh n, cs.getLast? = some (o, sh, n) →
        canonicalize_pattern st0 .whenBranch (.recordDestructure c5fields) 9 =
          some (st1, out, ⟨9, .shadowed o sh n⟩))) :=
  ⟨rfl, rfl, c5_destructure_shadow_collapse st0 .whenBranch 9 c5fields rfl rfl⟩

/-- C7: guard law. For a record destructure with a guarded field
`{ label: guardPat }`, only the symbols bound inside the guard are
contributed: the output's bound symbols are exactly the guard's, the
field's own (interned-but-ignored) symbol is in neither the output nor
the unordered extraction, and — when the label does not independently
occur as a binder inside the guard and no opaque in scope is interned
under it — no contributed symbol is interned under the field's
label. -/
theorem c7_guard_law (st : CanState) (ptype : PatternType)
    (region fr gr : Region) (label : String) (gp : SPattern)
    (hwf : SPattern.wfB gp = true) (hnp : SPattern.noPanicB gp = true)
    (hlabel : label ∉ SPattern.bindNames gp)
    (hopq : OpqAvoids st label) :
    ∃ (stG : CanState) (guardOut : Output) (canGuard : Loc Pattern)
      (stR : CanState),
      canonicalize_pattern
          ⟨⟨st.env.home, st.env.identIds ++ [label], st.env.problems⟩,
            st.scope, st.nextVar + 2⟩ ptype gp gr =
        some (stG, guardOut, canGuard) ∧
      canonicalize_pattern st ptype
          (.recordDestructure [⟨fr, .requiredField label ⟨gr, gp⟩⟩]) region =
        some (stR, guardOut.union Output.empty,
          ⟨region, .recordDestructure (st.nextVar + 1) st.nextVar
            [⟨fr, .mk stG.nextVar label ⟨st.env.home, st.env.identIds.length⟩
              (.guard (stG.nextVar + 1) canGuard)⟩]⟩) ∧
      (guardOut.union Output.empty).boundSymbols = guardOut.boundSymbols ∧
      (⟨st.env.home, st.env.identIds.length⟩ : Symbol) ∉ guardOut.boundSymbols ∧
      (∀ s ∈ guardOut.boundSymbols,
        ∀ n, stR.env.identIds[s.identId]? = some n → n ≠ label) ∧
      symbols_from_pattern
          (.recordDestructure (st.nextVar + 1) st.nextVar
            [⟨fr, .mk stG.nextVar label ⟨st.env.home, st.env.identIds.length⟩
              (.guard (stG.nextVar + 1) canGuard)⟩]) =
        symbols_from_pattern_help canGuard.value ∧
      (⟨st.env.home, st.env.identIds.length⟩ : Symbol) ∉
        symbols_from_pattern_help canGuard.value ∧
      (∀ s ∈ symbols_from_pattern_help canGuard.value,
        ∀ n, stR.env.identIds[s.identId]? = some n → n ≠ label) := by
  have htot := canonicalize_pattern_total gp
    ⟨⟨st.env.home, st.env.identIds ++ [label], st.env.problems⟩,
      st.scope, st.nextVar + 2⟩ ptype gr hwf hnp
  cases hg : canonicalize_pattern
      ⟨⟨st.env.home, st.env.identIds ++ [label], st.env.problems⟩,
        st.scope, st.nextVar + 2⟩ ptype gp gr with
  | none => rw [hg] at htot; simp at htot
  | some r =>
  obtain ⟨stG, guardOut, canGuard⟩ := r
  obtain ⟨cgr, cgv⟩ := canGuard
  obtain ⟨hgext, hghome, hgopqs, hgbound, hgextr⟩ :=
    can_inv gp _ ptype gr stG guardOut ⟨cgr, cgv⟩ hg
  obtain ⟨text, htext⟩ := hgext
  refine ⟨stG, guardOut, ⟨cgr, cgv⟩, { stG with nextVar := stG.nextVar + 2 },
    rfl, ?_, ?_, ?_, ?_, ?_, ?_, ?_⟩
  · unfold canonicalize_pattern
    dsimp only [CanState.fresh]
    rw [canonicalize_fields_cons_req]
    dsimp only
    rw [hg]
    dsimp only
    rw [show canonicalize_fields { stG with nextVar := stG.nextVar + 2 } ptype
        region [] = some (_, Output.empty, [], none) from rfl]
    rfl
  · simp [Output.union, Output.empty]
  · intro hmem
    obtain ⟨_, hlo, _, _⟩ := hgbound _ hmem
    simp only [List.length_append, List.length_cons, List.length_nil] at hlo
    omega
  · intro s hs n hget hn
    obtain ⟨_, _, _, n0, hget0, hn0⟩ := hgbound s hs
    rw [hget0] at hget
    simp only [Option.some.injEq] at hget
    subst hget
    subst hn
    exact hlabel hn0
  · simp only [symbols_from_pattern, symbols_from_pattern_help,
      symbols_from_destructs, List.append_nil]
  · intro hmem
    cases hgextr _ hmem with
    | inl ho =>
      obtain ⟨e, he, heq⟩ := ho
      obtain ⟨hlt, _⟩ := hopq e he
      rw [heq] at hlt
      simp at hlt
    | inr hm =>
      obtain ⟨_, hlo, _, _⟩ := hm
      simp only [List.length_append, List.length_cons, List.length_nil] at hlo
      omega
  · intro s hs n hget hn
    cases hgextr s hs with
    | inl ho =>
      obtain ⟨e, he, heq⟩ := ho
      obtain ⟨hlt, hname⟩ := hopq e he
      subst heq
      rw [htext] at hget
      rw [List.getElem?_append_left (by simp; omega)] at hget
      rw [List.getElem?_append_left hlt] at hget
      subst hn
      exact hname _ hget rfl
    | inr hm =>
      obtain ⟨_, _, _, n0, hget0, hn0⟩ := hm
      rw [hget0] at hget
      simp only [Option.some.injEq] at hget
      subst hget
      subst hn
      exact hlabel hn0

/-- C7 witness: the guard law for `{ y: x }` from the empty state — the
guard binds only `x`, and no symbol for `y` is bound or extracted. -/
theorem c7_guard_law_witness :
    ∃ (stG : CanState) (guardOut : Output) (canGuard : Loc Pattern)
      (stR : CanState),
      canonicalize_pattern ⟨⟨0, [] ++ ["y"], []⟩, ⟨[], []⟩, 0 + 2⟩ .whenBranch
          (.identifier "x") 3 =
        some (stG, guardOut, canGuard) ∧
      canonicalize_pattern st0 .whenBranch
          (.recordDestructure [⟨2, .requiredField "y" ⟨3, .identifier "x"⟩⟩]) 9 =
        some (stR, guardOut.union Output.empty,
          ⟨9, .recordDestructure (0 + 1) 0
            [⟨2, .mk stG.nextVar "y" ⟨0, 0⟩ (.guard (stG.nextVar + 1) canGuard)⟩]⟩) ∧
      (guardOut.union Output.empty).boundSymbols = guardOut.boundSymbols ∧
      (⟨0, 0⟩ : Symbol) ∉ guardOut.boundSymbols ∧
      (∀ s ∈ guardOut.boundSymbols,
        ∀ n, stR.env.identIds[s.identId]? = some n → n ≠ "y") ∧
      symbols_from_pattern
          (.recordDestructure (0 + 1) 0
            [⟨2, .mk stG.nextVar "y" ⟨0, 0⟩ (.guard (stG.nextVar + 1) canGuard)⟩]) =
        symbols_from_pattern_help canGuard.value ∧
      (⟨0, 0⟩ : Symbol) ∉ symbols_from_pattern_help canGuard.value ∧
      (∀ s ∈ symbols_from_pattern_help canGuard.value,
        ∀ n, stR.env.identIds[s.identId]? = some n → n ≠ "y") :=
  c7_guard_law st0 .whenBranch 9 2 3 "y" (.identifier "x") rfl rfl
    (by decide) (by intro e he; cases he)

end RocCan
